import Mathlib

/-!
Verification development for the `openmsimodel` graph engine
(`openmsimodel/graph/open_graph.py`).

The Python module builds a directed provenance graph (a networkx `DiGraph`)
from GEMD records: `build_graph` iterates records, `handle_gemd_obj` creates
one node per eligible record and wires kind-specific edges,
`add_gemd_assets` / `handle_gemd_value` / `add_to_graph` attach formatted
attribute values either inline (node attributes) or as separate nodes, and
`slice_subgraph` extracts induced subgraphs.

The embedding below mirrors the source faithfully:
  - a networkx `DiGraph` is a list of nodes (each an association list of
    attributes, where the display color is the attribute `"color"`) plus a
    list of directed edges with no duplicates (adding an existing edge is a
    no-op, as in `DiGraph.add_edge`);
  - Python exceptions (`KeyError`, `TypeError`, `UnboundLocalError`) are
    modelled with `Except`;
  - the local variable `node_name` of `handle_gemd_value`, which Python
    keeps across loop iterations and which is unassigned for unrecognized
    value types, is threaded explicitly as an `Option String`.
-/

/-- Character-list prefix test (Python `str.startswith`). -/
def listPre : List Char → List Char → Bool
  | [], _ => true
  | _ :: _, [] => false
  | a :: as, b :: bs => a == b && listPre as bs

/-- Python `s.startswith(p)`. -/
def strStartsWith (s p : String) : Bool :=
  listPre p.toList s.toList

/-- Python `s.endswith(p)`. -/
def strEndsWith (s p : String) : Bool :=
  listPre p.toList.reverse s.toList.reverse

/-- Python `s[:n]`. -/
def strTake (s : String) (n : Nat) : String :=
  String.mk (s.toList.take n)

/-- Whether the character list contains the GEMD tag separator `"::"`. -/
def hasTagSepAux : List Char → Bool
  | [] => false
  | ':' :: ':' :: _ => true
  | _ :: rest => hasTagSepAux rest

/-- Python `"::" in s`. -/
def strHasTagSep (s : String) : Bool :=
  hasTagSepAux s.toList

/-- A node attribute value: either a single string or the index-to-value
mapping the code builds when several values share one attribute name
(modelled in insertion order, index `i` holding the `i`-th string). -/
inductive AttrVal where
  | s (v : String)
  | m (vs : List String)
deriving DecidableEq, Repr

/-- The attribute dictionary of one networkx node. -/
abbrev NodeAttrs := List (String × AttrVal)

/-- Update the binding of `k` with `f`, or append `(k, d)` when `k` is
unbound (the shape shared by dict assignment and `nx.add_node`; keys are
unique, as in a Python dict). -/
def adjustOrAdd {α : Type} : List (String × α) → String → (α → α) → α → List (String × α)
  | [], k, _, d => [(k, d)]
  | p :: ps, k, f, d =>
    if p.1 == k then (p.1, f p.2) :: ps else p :: adjustOrAdd ps k f d

/-- Python dict assignment `l[k] = v`. -/
def upsert {α : Type} (l : List (String × α)) (k : String) (v : α) :
    List (String × α) :=
  adjustOrAdd l k (fun _ => v) v

/-- A networkx `DiGraph`: node list (insertion order, each with its
attribute dictionary) and directed edge list without duplicates. -/
structure Graph where
  nodes : List (String × NodeAttrs)
  edges : List (String × String)
deriving DecidableEq, Repr

/-- Node keys in insertion order. -/
def Graph.nodeKeys (G : Graph) : List String :=
  G.nodes.map Prod.fst

/-- The attribute dictionary of node `u`, when present. -/
def Graph.getNode (G : Graph) (u : String) : Option NodeAttrs :=
  List.lookup u G.nodes

/-- The display color of node `u` (its `"color"` attribute). -/
def colorOf (G : Graph) (u : String) : Option String :=
  match G.getNode u with
  | none => none
  | some at0 =>
    match List.lookup "color" at0 with
    | some (AttrVal.s c) => some c
    | _ => none

/-- The attribute `a` of node `u`, when present. -/
def attrOf (G : Graph) (u : String) (a : String) : Option AttrVal :=
  match G.getNode u with
  | none => none
  | some at0 => List.lookup a at0

/-- Whether node `u` exists and carries a `"color"` attribute. -/
def hasColorAttr (G : Graph) (u : String) : Bool :=
  match G.getNode u with
  | none => false
  | some at0 => (List.lookup "color" at0).isSome

/-- `G.add_node(u, color=c)`: create the node or overwrite its color. -/
def Graph.addNodeColor (G : Graph) (u : String) (c : String) : Graph :=
  ⟨adjustOrAdd G.nodes u (fun at0 => upsert at0 "color" (AttrVal.s c))
      [("color", AttrVal.s c)], G.edges⟩

/-- `G.add_node(n, shape="rectangle", color="orange")` used for
separate attribute nodes. -/
def Graph.addNodeShaped (G : Graph) (n : String) : Graph :=
  ⟨adjustOrAdd G.nodes n
      (fun at0 => upsert (upsert at0 "shape" (AttrVal.s "rectangle")) "color"
        (AttrVal.s "orange"))
      [("shape", AttrVal.s "rectangle"), ("color", AttrVal.s "orange")], G.edges⟩

/-- Create node `u` with empty attributes when absent (what `add_edge`
does to missing endpoints). -/
def Graph.ensureNode (G : Graph) (u : String) : Graph :=
  ⟨adjustOrAdd G.nodes u (fun at0 => at0) [], G.edges⟩

/-- `G.add_edge(a, b)` on a `DiGraph`: create missing endpoints, add the
edge unless it is already present. -/
def Graph.addEdge (G : Graph) (a b : String) : Graph :=
  if G.edges.any (fun e => e.1 == a && e.2 == b) then (G.ensureNode a).ensureNode b
  else ⟨((G.ensureNode a).ensureNode b).nodes, G.edges ++ [(a, b)]⟩

/-- Replace, inside a node list, the attribute `a` of node `uid` by `v`
(plain dict assignment on an existing node; a no-op on an absent node,
which callers rule out beforehand). -/
def updNodeAttrs : List (String × NodeAttrs) → String → String → AttrVal → List (String × NodeAttrs)
  | [], _, _, _ => []
  | p :: ps, uid, a, v =>
    if p.1 == uid then (p.1, upsert p.2 a v) :: ps else p :: updNodeAttrs ps uid a v

/-- `OpenGraph.add_to_graph`.  Separate-node mode creates an orange
rectangle node plus an `owner -> value` edge.  Inline mode stores the
value on the owner node: appending to an existing index mapping, raising
`TypeError` on an existing single string (Python `str` item assignment),
and otherwise creating either a fresh index mapping (for `file_links` and
`tags`) or a single string. -/
def add_to_graph (G : Graph) (uid : String) (node_name att_name : String)
    (add_separate_node : Bool) : Except String Graph :=
  if add_separate_node then
    .ok ((G.addNodeShaped node_name).addEdge uid node_name)
  else
    match G.getNode uid with
    | none => .error "KeyError: node"
    | some at0 =>
      match List.lookup att_name at0 with
      | some (AttrVal.m xs) =>
        .ok ⟨updNodeAttrs G.nodes uid att_name (AttrVal.m (xs ++ [node_name])), G.edges⟩
      | some (AttrVal.s _) => .error "TypeError: str item assignment"
      | none =>
        if att_name == "file_links" || att_name == "tags" then
          .ok ⟨updNodeAttrs G.nodes uid att_name (AttrVal.m [node_name]), G.edges⟩
        else
          .ok ⟨updNodeAttrs G.nodes uid att_name (AttrVal.s node_name), G.edges⟩

/-- The `value` dictionary of a GEMD attribute; each field holds the
string interpolated by the corresponding `format` call. -/
structure ValueData where
  vtype : String
  nominal : String
  units : String
  lower_bound : String
  upper_bound : String
  formula : String
  mean : String
  std : String
  category : String
  quantities : String
deriving DecidableEq, Repr

/-- The 8-way `value["type"]` dispatch of `handle_gemd_value`; `none`
when the type tag is not recognized (Python then leaves `node_name`
unassigned). -/
def formatValue (att_name : String) (v : ValueData) : Option String :=
  if v.vtype == "nominal_real" then
    some (att_name ++ ", " ++ v.nominal ++ " " ++ v.units)
  else if v.vtype == "nominal_integer" then
    some (att_name ++ ", " ++ v.nominal)
  else if v.vtype == "uniform_real" then
    some (att_name ++ ", " ++ v.lower_bound ++ "-" ++ v.upper_bound ++ " " ++ v.units)
  else if v.vtype == "uniform_integer" then
    some (att_name ++ ", " ++ v.lower_bound ++ "-" ++ v.upper_bound)
  else if v.vtype == "empirical_formula" then
    some (att_name ++ ", " ++ v.formula ++ ", " ++ v.vtype)
  else if v.vtype == "normal_real" then
    some (att_name ++ ", mean " ++ v.mean ++ ", std " ++ v.std ++ ", " ++ v.units
      ++ ", " ++ v.vtype)
  else if v.vtype == "nominal_categorical" then
    some (att_name ++ ", " ++ v.category)
  else if v.vtype == "nominal_composition" then
    some (att_name ++ ", " ++ v.quantities)
  else none

/-- One entry of an asset collection handed to `handle_gemd_value`:
either a plain string (tag candidate) or a GEMD object with its `type`
discriminator, `url`, `name`/`value`, and nested
`property.name`/`property.value` fields. -/
inductive Asset where
  | tagStr (s : String)
  | obj (atype : String) (url : String) (name : String) (value : ValueData)
      (pname : String) (pvalue : ValueData)
deriving DecidableEq, Repr

/-- Loop body of `handle_gemd_value`, threading the Python-local
`node_name` (`none` while still unassigned; an unrecognized value type
keeps the previous contents, so a stale value can be attached and a
never-assigned one raises `UnboundLocalError`). -/
def hgv_loop (uid : String) (sep : Bool) :
    List Asset → Graph → Option String → Except String Graph
  | [], G, _ => .ok G
  | (Asset.tagStr s) :: rest, G, carried =>
    if strHasTagSep s then
      match add_to_graph G uid s "tags" false with
      | .ok G2 => hgv_loop uid sep rest G2 carried
      | .error e => .error e
    else hgv_loop uid sep rest G carried
  | (Asset.obj atype url name value pname pvalue) :: rest, G, carried =>
    if atype == "" then hgv_loop uid sep rest G carried
    else if atype == "file_link" then
      match add_to_graph G uid url "file_links" false with
      | .ok G2 => hgv_loop uid sep rest G2 carried
      | .error e => .error e
    else
      let an := if atype == "property_and_conditions" then pname else name
      let v := if atype == "property_and_conditions" then pvalue else value
      let carried2 := match formatValue an v with
        | some s => some s
        | none => carried
      match carried2 with
      | none => .error "UnboundLocalError: node_name"
      | some nn =>
        match add_to_graph G uid nn an sep with
        | .ok G2 => hgv_loop uid sep rest G2 carried2
        | .error e => .error e

/-- `OpenGraph.handle_gemd_value`. -/
def handle_gemd_value (G : Graph) (uid : String) (assets : List Asset)
    (sep : Bool) : Except String Graph :=
  hgv_loop uid sep assets G none

/-- The `assets_to_add` flag dictionary. -/
structure AssetsToAdd where
  add_attributes : Bool
  add_file_links : Bool
  add_tags : Bool
deriving DecidableEq, Repr

/-- All asset flags off. -/
def noAssets : AssetsToAdd := ⟨false, false, false⟩

/-- A parsed GEMD record, holding exactly the fields `open_graph.py`
reads.  `process`/`material` model the JSON reference dictionaries:
`none` = key absent, `some none` = present but falsy (null / empty),
`some (some i)` = `{"id": i}`. -/
structure ObjData where
  otype : String
  uids : List (String × String)
  name : String
  process : Option (Option String)
  material : Option (Option String)
  parameters : Option (List Asset)
  properties : Option (List Asset)
  conditions : Option (List Asset)
  tags : Option (List Asset)
  file_links : Option (List Asset)
deriving DecidableEq, Repr

/-- Explicit exception-propagating bind on `Except`. -/
def exBind (x : Except String Graph) (f : Graph → Except String Graph) :
    Except String Graph :=
  match x with
  | .error e => .error e
  | .ok g => f g

/-- One guarded collection step of `add_gemd_assets`
(`if flag and key in obj_data: handle_gemd_value(...)`). -/
def step_attr (b : Bool) (G : Graph) (uid : String) (a : Option (List Asset))
    (sep : Bool) : Except String Graph :=
  if b then
    match a with
    | some assets => handle_gemd_value G uid assets sep
    | none => .ok G
  else .ok G

/-- `OpenGraph.add_gemd_assets`: parameters, properties and conditions
under `add_attributes`, then file links, then tags. -/
def add_gemd_assets (G : Graph) (uid : String) (o : ObjData)
    (flags : AssetsToAdd) (sep : Bool) : Except String Graph :=
  exBind (step_attr flags.add_attributes G uid o.parameters sep) (fun G1 =>
    exBind (step_attr flags.add_attributes G1 uid o.properties sep) (fun G2 =>
      exBind (step_attr flags.add_attributes G2 uid o.conditions sep) (fun G3 =>
        exBind (step_attr flags.add_file_links G3 uid o.file_links sep) (fun G4 =>
          step_attr flags.add_tags G4 uid o.tags sep))))

/-- `OpenGraph.handle_gemd_obj`: kind dispatch by type-string prefix,
`which` filter by suffix, node creation with the kind color, and the
kind-specific edges.  The material branch reads `obj_data["process"]`
unguarded, so a missing key raises; the ingredient branch reads
`obj_data["process"]["id"]` unguarded. -/
def handle_gemd_obj (G : Graph) (uid : String) (o : ObjData) (which : String)
    (flags : AssetsToAdd) (sep : Bool) : Except String Graph :=
  if strStartsWith o.otype "process" then
    if strEndsWith o.otype which then
      add_gemd_assets (G.addNodeColor uid "red") uid o flags sep
    else .ok G
  else if strStartsWith o.otype "ingredient" then
    if strEndsWith o.otype which then
      match o.process with
      | some (some pid) =>
        exBind (add_gemd_assets ((G.addNodeColor uid "blue").addEdge uid pid)
            uid o flags sep) (fun G2 =>
          match o.material with
          | some (some mid) => .ok (G2.addEdge mid uid)
          | _ => .ok G2)
      | _ => .error "KeyError: process"
    else .ok G
  else if strStartsWith o.otype "material" then
    if strEndsWith o.otype which then
      exBind (add_gemd_assets (G.addNodeColor uid "green") uid o flags sep)
        (fun G2 =>
          match o.process with
          | none => .error "KeyError: process"
          | some none => .ok G2
          | some (some pid) => .ok (G2.addEdge pid uid))
    else .ok G
  else if strStartsWith o.otype "measurement" then
    if strEndsWith o.otype which then
      exBind (add_gemd_assets (G.addNodeColor uid "purple") uid o flags sep)
        (fun G2 =>
          match o.material with
          | some (some mid) => .ok (G2.addEdge uid mid)
          | _ => .ok G2)
    else .ok G
  else .ok G

/-- One entry of the `gemd_objects` collection consumed by
`build_graph`: a `"raw_jsons"` bulk payload, a list payload, or a
record dictionary. -/
inductive GemdEntry where
  | rawJsons
  | listData
  | obj (o : ObjData)
deriving DecidableEq, Repr

/-- The record loop of `build_graph`: skip bulk and list payloads, skip
parameter/condition/property records, skip records without the tracked
namespace, record the display label `name ++ ",  " ++ uid[:3]` in the
name mapping, and hand the record to `handle_gemd_obj`. -/
def build_graph_loop (which : String) (flags : AssetsToAdd) (sep : Bool)
    (track : String) :
    List GemdEntry → Graph → List (String × String) →
      Except String (Graph × List (String × String))
  | [], G, nm => .ok (G, nm)
  | GemdEntry.rawJsons :: rest, G, nm =>
    build_graph_loop which flags sep track rest G nm
  | GemdEntry.listData :: rest, G, nm =>
    build_graph_loop which flags sep track rest G nm
  | (GemdEntry.obj o) :: rest, G, nm =>
    if strStartsWith o.otype "parameter" || strStartsWith o.otype "condition"
        || strStartsWith o.otype "property" then
      build_graph_loop which flags sep track rest G nm
    else
      match List.lookup track o.uids with
      | none => build_graph_loop which flags sep track rest G nm
      | some uid =>
        let nm2 := upsert nm uid (o.name ++ ",  " ++ strTake uid 3)
        match handle_gemd_obj G uid o which flags sep with
        | .ok G2 => build_graph_loop which flags sep track rest G2 nm2
        | .error e => .error e

/-- `OpenGraph.build_graph` restricted to its observable result: `none`
when `len(gemd_objects) == 0` (the early `return`), otherwise the built
graph and name mapping (the relabeled copy is a pure function of
these two), with exceptions propagated. -/
def build_graph (objs : List GemdEntry) (which : String) (flags : AssetsToAdd)
    (sep : Bool) (track : String) :
    Except String (Option (Graph × List (String × String))) :=
  if objs.length = 0 then .ok none
  else
    match build_graph_loop which flags sep track objs ⟨[], []⟩ [] with
    | .ok (G, nm) => .ok (some (G, nm))
    | .error e => .error e

/-- Membership-preserving set union on node-key lists (Python `set.union`
restricted to what the subgraph filter observes: membership). -/
def listUnion (a b : List String) : List String :=
  a ++ b.filter (fun x => !(a.contains x))

/-- `G.subgraph(els)`: the induced subgraph over the keys of `els` that
are nodes of `G`. -/
def Graph.subgraph (G : Graph) (els : List String) : Graph :=
  ⟨G.nodes.filter (fun p => els.contains p.1),
    G.edges.filter (fun e => els.contains e.1 && els.contains e.2)⟩

/-- `OpenGraph.slice_subgraph`: union the node sets produced by the
passed functions, optionally add the anchor, and take the induced
subgraph. -/
def slice_subgraph (G : Graph) (uuid : String)
    (funcs : List (Graph → String → List String)) (add_current : Bool) : Graph :=
  let els := funcs.foldl (fun acc f => listUnion acc (f G uuid)) []
  let els2 := if add_current then listUnion els [uuid] else els
  G.subgraph els2

/-- Direct predecessors of `v`. -/
def predsOf (G : Graph) (v : String) : List String :=
  (G.edges.filter (fun e => e.2 == v)).map Prod.fst

/-- One saturation step of backward reachability. -/
def predStep (G : Graph) (s : List String) : List String :=
  s.foldl (fun acc v => listUnion acc (predsOf G v)) s

/-- Iterated saturation. -/
def reachToAux (G : Graph) : Nat → List String → List String
  | 0, s => s
  | n + 1, s => reachToAux G n (predStep G s)

/-- `nx.ancestors G v`: all nodes with a directed path to `v`,
excluding `v` itself. -/
def ancestors (G : Graph) (v : String) : List String :=
  (reachToAux G G.nodes.length [v]).filter (fun x => !(x == v))

/-- Eligibility of an input entry for node `u`: a record whose kind
string matches the requested filter and whose tracked namespace
identifier is `u` (the correspondence required by the spec). -/
def eligibleFor (which track u : String) : GemdEntry → Bool
  | GemdEntry.obj o => strEndsWith o.otype which && (List.lookup track o.uids == some u)
  | _ => false

/-- Eligibility of an input entry in itself: a record of one of the four
graph kinds, matching the filter, exposing the tracked identifier. -/
def eligibleRec (which track : String) : GemdEntry → Bool
  | GemdEntry.obj o =>
    (strStartsWith o.otype "material" || strStartsWith o.otype "process"
        || strStartsWith o.otype "ingredient" || strStartsWith o.otype "measurement")
      && strEndsWith o.otype which && (List.lookup track o.uids).isSome
  | _ => false

/-- The four kind colors. -/
def kindColors : List String := ["red", "blue", "green", "purple"]

/-- Whether an asset entry is a plain tag string or a file link. -/
def isTagOrLink : Asset → Bool
  | Asset.tagStr _ => true
  | Asset.obj atype _ _ _ _ _ => atype == "file_link"

/-- An asset collection made only of tags and file links (no
separate-node candidates). -/
def allTagsOrLinks (assets : List Asset) : Bool :=
  assets.all isTagOrLink

/-- The formatted value an object asset contributes, when it is a
recognized attribute (not a file link, not an empty discriminator). -/
def assetFormatted : Asset → Option String
  | Asset.tagStr _ => none
  | Asset.obj atype _ name value pname pvalue =>
    if atype == "" then none
    else if atype == "file_link" then none
    else if atype == "property_and_conditions" then formatValue pname pvalue
    else formatValue name value

/-- An empty value dictionary (fields unused by the exercised branch). -/
def emptyVal : ValueData := ⟨"", "", "", "", "", "", "", "", "", ""⟩

/-- Fixture: material record `m1`, produced by process `p1`. -/
def mat1 : ObjData :=
  ⟨"material_run", [("auto", "m1")], "mat one", some (some "p1"), none,
    none, none, none, none, none⟩

/-- Fixture: process record `p1`. -/
def proc1 : ObjData :=
  ⟨"process_run", [("auto", "p1")], "proc one", none, none,
    none, none, none, none, none⟩

/-- Fixture: ingredient record `i1`, referencing process `p1` and
material `m1`. -/
def ing1 : ObjData :=
  ⟨"ingredient_run", [("auto", "i1")], "ing one", some (some "p1"),
    some (some "m1"), none, none, none, none, none⟩

/-- The end-to-end example input of the spec: material, process,
ingredient. -/
def inputC1 : List GemdEntry :=
  [GemdEntry.obj mat1, GemdEntry.obj proc1, GemdEntry.obj ing1]

/-- Expected graph for `inputC1`. -/
def GC1 : Graph :=
  ⟨[("m1", [("color", AttrVal.s "green")]),
    ("p1", [("color", AttrVal.s "red")]),
    ("i1", [("color", AttrVal.s "blue")])],
   [("p1", "m1"), ("i1", "p1"), ("m1", "i1")]⟩

/-- Expected name mapping for `inputC1`. -/
def nmC1 : List (String × String) :=
  [("m1", "mat one,  m1"), ("p1", "proc one,  p1"), ("i1", "ing one,  i1")]

/-- Fixture: the 3-node linear chain A -> B -> C. -/
def chainG : Graph :=
  ⟨[("A", []), ("B", []), ("C", [])], [("A", "B"), ("B", "C")]⟩

/-- Fixture: ingredient record referencing a process `p1` for which no
record exists in the input. -/
def ing2 : ObjData :=
  ⟨"ingredient_run", [("auto", "i1")], "ing", some (some "p1"), none,
    none, none, none, none, none⟩

/-- Expected graph for the single-ingredient input. -/
def GC2 : Graph :=
  ⟨[("i1", [("color", AttrVal.s "blue")]), ("p1", [])], [("i1", "p1")]⟩

/-- Expected name mapping for the single-ingredient input. -/
def nmC2 : List (String × String) := [("i1", "ing,  i1")]

/-- Fixture: an attribute whose value type tag is not among the 8
recognized ones. -/
def badAtt : Asset :=
  Asset.obj "parameter" "" "b" ⟨"weird", "", "", "", "", "", "", "", "", ""⟩ "" emptyVal

/-- Fixture: a recognized nominal-integer attribute named `a`. -/
def goodAtt : Asset :=
  Asset.obj "parameter" "" "a" ⟨"nominal_integer", "5", "", "", "", "", "", "", "", ""⟩
    "" emptyVal

/-- Fixture: an owner node for attribute attachment. -/
def G3fix : Graph := ⟨[("n1", [("color", AttrVal.s "green")])], []⟩

/-- Fixture: an owner node for inline aggregation. -/
def G4fix : Graph := ⟨[("n1", [("color", AttrVal.s "red")])], []⟩

/-- Fixture: a parameter-typed record (disregarded by the builder). -/
def paramRec : ObjData :=
  ⟨"parameter_spec", [("auto", "x1")], "par", none, none,
    none, none, none, none, none⟩

/-- Fixture: material record whose `process` key is absent. -/
def matNoProc : ObjData :=
  ⟨"material_run", [("auto", "m2")], "m", none, none,
    none, none, none, none, none⟩

/-- Fixture: material record whose `process` value is present but falsy. -/
def matEmptyProc : ObjData :=
  ⟨"material_run", [("auto", "m2")], "m", some none, none,
    none, none, none, none, none⟩

/-- Expected graph when the same material record appears twice. -/
def GC8 : Graph :=
  ⟨[("m1", [("color", AttrVal.s "green")]), ("p1", [])], [("p1", "m1")]⟩

/-- Fixture: material record with a 6-character identifier. -/
def matL : ObjData :=
  ⟨"material_run", [("auto", "abcdef")], "x", some none, none,
    none, none, none, none, none⟩

/-- Expected graph for the `matL` input. -/
def GC9 : Graph := ⟨[("abcdef", [("color", AttrVal.s "green")])], []⟩

/-- Expected name mapping for the `matL` input. -/
def nmC9 : List (String × String) := [("abcdef", "x,  abc")]

/-- Fixture: an owner node for the C10 witness. -/
def G10fix : Graph := ⟨[("w1", [("color", AttrVal.s "purple")])], []⟩

/-- Expected graph after attaching one tag on `G10fix`. -/
def G10tag : Graph :=
  ⟨[("w1", [("color", AttrVal.s "purple"), ("tags", AttrVal.m ["a::b"])])], []⟩

section AssocLemmas

variable {α : Type}

theorem lookup_adjustOrAdd_self (l : List (String × α)) (k : String) (f : α → α) (d : α) :
    List.lookup k (adjustOrAdd l k f d) =
      some (match List.lookup k l with | some v => f v | none => d) := by
  induction l with
  | nil => simp [adjustOrAdd, List.lookup]
  | cons p ps ih =>
    by_cases h : p.1 = k
    · subst h
      simp [adjustOrAdd, List.lookup]
    · have hb : (p.1 == k) = false := by simp [h]
      have hb2 : (k == p.1) = false := by simp [Ne.symm h]
      simp [adjustOrAdd, hb, List.lookup, hb2, ih]

theorem lookup_adjustOrAdd_ne (l : List (String × α)) {k k' : String} (f : α → α)
    (d : α) (hne : k' ≠ k) :
    List.lookup k' (adjustOrAdd l k f d) = List.lookup k' l := by
  have hb0 : (k' == k) = false := by simp [hne]
  induction l with
  | nil => simp [adjustOrAdd, List.lookup, hb0]
  | cons p ps ih =>
    by_cases h : p.1 = k
    · subst h
      have hb2 : (k' == p.1) = false := by simp [hne]
      simp [adjustOrAdd, List.lookup, hb2]
    · have hb : (p.1 == k) = false := by simp [h]
      by_cases h2 : k' = p.1
      · subst h2
        simp [adjustOrAdd, hb, List.lookup]
      · have hb2 : (k' == p.1) = false := by simp [h2]
        simp [adjustOrAdd, hb, List.lookup, hb2, ih]

theorem lookup_upsert_self (l : List (String × α)) (k : String) (v : α) :
    List.lookup k (upsert l k v) = some v := by
  unfold upsert
  rw [lookup_adjustOrAdd_self]
  cases List.lookup k l <;> rfl

theorem lookup_upsert_ne (l : List (String × α)) {k k' : String} (v : α)
    (hne : k' ≠ k) :
    List.lookup k' (upsert l k v) = List.lookup k' l :=
  lookup_adjustOrAdd_ne l (fun _ => v) v hne

theorem mem_upsert {l : List (String × α)} {k u : String} {v w : α}
    (h : (u, w) ∈ upsert l k v) : (u, w) ∈ l ∨ (u = k ∧ w = v) := by
  induction l with
  | nil =>
    simp [upsert, adjustOrAdd] at h
    exact Or.inr h
  | cons p ps ih =>
    by_cases hk : p.1 = k
    · simp only [upsert, adjustOrAdd, hk, beq_self_eq_true, if_true] at h
      rcases List.mem_cons.mp h with h1 | h1
      · exact Or.inr ⟨congrArg Prod.fst h1, congrArg Prod.snd h1⟩
      · exact Or.inl (List.mem_cons_of_mem _ h1)
    · have hb : (p.1 == k) = false := by simp [hk]
      simp only [upsert, adjustOrAdd, hb, Bool.false_eq_true, if_false] at h
      rcases List.mem_cons.mp h with h1 | h1
      · exact Or.inl (h1 ▸ List.mem_cons_self _ _)
      · rcases ih h1 with h2 | h2
        · exact Or.inl (List.mem_cons_of_mem _ h2)
        · exact Or.inr h2

theorem keys_adjustOrAdd (l : List (String × α)) (k : String) (f : α → α) (d : α)
    (n : String) :
    n ∈ (adjustOrAdd l k f d).map Prod.fst ↔ n ∈ l.map Prod.fst ∨ n = k := by
  induction l with
  | nil => simp [adjustOrAdd]
  | cons p ps ih =>
    by_cases h : p.1 = k
    · subst h
      simp only [adjustOrAdd, beq_self_eq_true, if_true, List.map_cons, List.mem_cons]
      constructor
      · rintro (h1 | h1)
        · exact Or.inl (Or.inl h1)
        · exact Or.inl (Or.inr h1)
      · rintro ((h1 | h1) | h1)
        · exact Or.inl h1
        · exact Or.inr h1
        · exact Or.inl h1
    · have hb : (p.1 == k) = false := by simp [h]
      simp only [adjustOrAdd, hb, Bool.false_eq_true, if_false, List.map_cons,
        List.mem_cons, ih]
      tauto

theorem keys_updNodeAttrs (l : List (String × NodeAttrs)) (uid a : String) (v : AttrVal) :
    (updNodeAttrs l uid a v).map Prod.fst = l.map Prod.fst := by
  induction l with
  | nil => rfl
  | cons p ps ih =>
    by_cases h : p.1 = uid
    · have hb : (p.1 == uid) = true := by simp [h]
      simp [updNodeAttrs, hb]
    · have hb : (p.1 == uid) = false := by simp [h]
      simp [updNodeAttrs, hb, ih]

theorem lookup_updNodeAttrs_self (l : List (String × NodeAttrs)) (uid a : String)
    (v : AttrVal) :
    List.lookup uid (updNodeAttrs l uid a v) =
      (List.lookup uid l).map (fun at0 => upsert at0 a v) := by
  induction l with
  | nil => simp [updNodeAttrs, List.lookup]
  | cons p ps ih =>
    by_cases h : p.1 = uid
    · subst h
      simp [updNodeAttrs, List.lookup]
    · have hb : (p.1 == uid) = false := by simp [h]
      have hb2 : (uid == p.1) = false := by simp [Ne.symm h]
      simp [updNodeAttrs, hb, List.lookup, hb2, ih]

theorem lookup_updNodeAttrs_ne (l : List (String × NodeAttrs)) {uid u : String}
    (a : String) (v : AttrVal) (hne : u ≠ uid) :
    List.lookup u (updNodeAttrs l uid a v) = List.lookup u l := by
  induction l with
  | nil => rfl
  | cons p ps ih =>
    by_cases h : p.1 = uid
    · subst h
      have hb2 : (u == p.1) = false := by simp [hne]
      simp [updNodeAttrs, List.lookup, hb2]
    · have hb : (p.1 == uid) = false := by simp [h]
      by_cases h2 : u = p.1
      · subst h2
        simp [updNodeAttrs, hb, List.lookup]
      · have hb2 : (u == p.1) = false := by simp [h2]
        simp [updNodeAttrs, hb, List.lookup, hb2, ih]

end AssocLemmas

section GraphOpLemmas

theorem edges_ensureNode (G : Graph) (u : String) :
    (G.ensureNode u).edges = G.edges := rfl

theorem edges_addNodeColor (G : Graph) (u c : String) :
    (G.addNodeColor u c).edges = G.edges := rfl

theorem edges_addNodeShaped (G : Graph) (n : String) :
    (G.addNodeShaped n).edges = G.edges := rfl

theorem colorOf_addNodeColor_self (G : Graph) (u c : String) :
    colorOf (G.addNodeColor u c) u = some c := by
  unfold colorOf Graph.getNode Graph.addNodeColor
  rw [lookup_adjustOrAdd_self]
  cases h : List.lookup u G.nodes with
  | none => simp [List.lookup]
  | some at0 => simp [lookup_upsert_self]

theorem colorOf_addNodeColor_ne (G : Graph) {u u' : String} (c : String)
    (h : u' ≠ u) : colorOf (G.addNodeColor u c) u' = colorOf G u' := by
  unfold colorOf Graph.getNode Graph.addNodeColor
  rw [lookup_adjustOrAdd_ne _ _ _ h]

theorem colorOf_addNodeShaped_self (G : Graph) (n : String) :
    colorOf (G.addNodeShaped n) n = some "orange" := by
  unfold colorOf Graph.getNode Graph.addNodeShaped
  rw [lookup_adjustOrAdd_self]
  cases h : List.lookup n G.nodes with
  | none => simp [List.lookup]
  | some at0 => simp [lookup_upsert_self]

theorem colorOf_addNodeShaped_ne (G : Graph) {n u : String} (h : u ≠ n) :
    colorOf (G.addNodeShaped n) u = colorOf G u := by
  unfold colorOf Graph.getNode Graph.addNodeShaped
  rw [lookup_adjustOrAdd_ne _ _ _ h]

theorem colorOf_ensureNode (G : Graph) (v u : String) :
    colorOf (G.ensureNode v) u = colorOf G u := by
  by_cases h : u = v
  · subst h
    unfold colorOf Graph.getNode Graph.ensureNode
    rw [lookup_adjustOrAdd_self]
    cases h2 : List.lookup u G.nodes with
    | none => simp [List.lookup]
    | some at0 => simp
  · unfold colorOf Graph.getNode Graph.ensureNode
    rw [lookup_adjustOrAdd_ne _ _ _ h]

theorem colorOf_addEdge (G : Graph) (a b u : String) :
    colorOf (G.addEdge a b) u = colorOf G u := by
  unfold Graph.addEdge
  split
  · rw [colorOf_ensureNode, colorOf_ensureNode]
  · show colorOf ((G.ensureNode a).ensureNode b) u = colorOf G u
    rw [colorOf_ensureNode, colorOf_ensureNode]

theorem mem_edges_addEdge (G : Graph) (a b : String) (e : String × String) :
    e ∈ (G.addEdge a b).edges ↔ e ∈ G.edges ∨ e = (a, b) := by
  unfold Graph.addEdge
  split
  case isTrue h =>
    show e ∈ G.edges ↔ _
    constructor
    · exact Or.inl
    · rintro (h1 | rfl)
      · exact h1
      · rcases List.any_eq_true.mp h with ⟨x, hx, hpx⟩
        have h2 := (Bool.and_eq_true _ _).mp hpx
        have hax : x = (a, b) :=
          Prod.ext (beq_iff_eq.mp h2.1) (beq_iff_eq.mp h2.2)
        exact hax ▸ hx
  case isFalse h =>
    show e ∈ G.edges ++ [(a, b)] ↔ _
    simp [List.mem_append]

theorem edges_nodup_addEdge (G : Graph) (a b : String) (h : G.edges.Nodup) :
    (G.addEdge a b).edges.Nodup := by
  unfold Graph.addEdge
  split
  case isTrue _ => exact h
  case isFalse hf =>
    show (G.edges ++ [(a, b)]).Nodup
    refine List.Nodup.append h (List.nodup_singleton _) ?_
    intro x hx hy
    simp only [List.mem_singleton] at hy
    subst hy
    exact hf (List.any_eq_true.mpr ⟨(a, b), hx, by simp⟩)

theorem contains_iff_mem (l : List String) (x : String) :
    l.contains x = true ↔ x ∈ l := by
  induction l with
  | nil => simp
  | cons a as ih =>
    simp only [List.contains_cons] at *
    constructor
    · intro h
      rcases Bool.or_eq_true_iff.mp h with h1 | h1
      · exact (beq_iff_eq.mp h1) ▸ List.mem_cons_self _ _
      · exact List.mem_cons_of_mem _ (ih.mp h1)
    · intro h
      rcases List.mem_cons.mp h with rfl | h1
      · simp
      · exact Bool.or_eq_true_iff.mpr (Or.inr (ih.mpr h1))

theorem mem_listUnion (a b : List String) (x : String) :
    x ∈ listUnion a b ↔ x ∈ a ∨ x ∈ b := by
  unfold listUnion
  rw [List.mem_append]
  constructor
  · rintro (h | h)
    · exact Or.inl h
    · exact Or.inr (List.mem_filter.mp h).1
  · rintro (h | h)
    · exact Or.inl h
    · by_cases ha : x ∈ a
      · exact Or.inl ha
      · refine Or.inr (List.mem_filter.mpr ⟨h, ?_⟩)
        simp only [Bool.not_eq_true']
        exact (Bool.not_eq_true _).mp (fun hc => ha ((contains_iff_mem _ _).mp hc))

end GraphOpLemmas

section SubgraphLemmas

theorem mem_foldl_union (G : Graph) (uuid : String)
    (funcs : List (Graph → String → List String)) :
    ∀ (init : List String) (x : String),
      x ∈ funcs.foldl (fun acc f => listUnion acc (f G uuid)) init ↔
        x ∈ init ∨ ∃ f ∈ funcs, x ∈ f G uuid := by
  induction funcs with
  | nil => intro init x; simp
  | cons f fs ih =>
    intro init x
    simp only [List.foldl_cons]
    rw [ih, mem_listUnion]
    constructor
    · rintro ((h | h) | ⟨g, hg, hx⟩)
      · exact Or.inl h
      · exact Or.inr ⟨f, List.mem_cons_self _ _, h⟩
      · exact Or.inr ⟨g, List.mem_cons_of_mem _ hg, hx⟩
    · rintro (h | ⟨g, hg, hx⟩)
      · exact Or.inl (Or.inl h)
      · rcases List.mem_cons.mp hg with rfl | hg2
        · exact Or.inl (Or.inr hx)
        · exact Or.inr ⟨g, hg2, hx⟩

theorem nodeKeys_subgraph (G : Graph) (els : List String) (n : String) :
    n ∈ (G.subgraph els).nodeKeys ↔ n ∈ G.nodeKeys ∧ n ∈ els := by
  unfold Graph.subgraph Graph.nodeKeys
  simp only [List.mem_map, List.mem_filter]
  constructor
  · rintro ⟨p, ⟨hp, hc⟩, rfl⟩
    exact ⟨⟨p, hp, rfl⟩, (contains_iff_mem _ _).mp hc⟩
  · rintro ⟨⟨p, hp, rfl⟩, hmem⟩
    exact ⟨p, ⟨hp, (contains_iff_mem _ _).mpr hmem⟩, rfl⟩

theorem mem_edges_subgraph (G : Graph) (els : List String) (e : String × String) :
    e ∈ (G.subgraph els).edges ↔ e ∈ G.edges ∧ e.1 ∈ els ∧ e.2 ∈ els := by
  unfold Graph.subgraph
  simp only [List.mem_filter, Bool.and_eq_true]
  constructor
  · rintro ⟨he, h1, h2⟩
    exact ⟨he, (contains_iff_mem _ _).mp h1, (contains_iff_mem _ _).mp h2⟩
  · rintro ⟨he, h1, h2⟩
    exact ⟨he, (contains_iff_mem _ _).mpr h1, (contains_iff_mem _ _).mpr h2⟩

end SubgraphLemmas

section AddToGraphLemmas

theorem colorOf_updG_ne (G : Graph) {uid u : String} (an : String) (v : AttrVal)
    (h : u ≠ uid) :
    colorOf ⟨updNodeAttrs G.nodes uid an v, G.edges⟩ u = colorOf G u := by
  unfold colorOf Graph.getNode
  rw [lookup_updNodeAttrs_ne _ _ _ h]

theorem getNode_updG_self (G : Graph) {uid : String} (an : String) (v : AttrVal)
    {at0 : NodeAttrs} (hG : G.getNode uid = some at0) :
    Graph.getNode ⟨updNodeAttrs G.nodes uid an v, G.edges⟩ uid =
      some (upsert at0 an v) := by
  unfold Graph.getNode at *
  rw [lookup_updNodeAttrs_self, hG]
  rfl

theorem hasColor_ensureNode (G : Graph) (v u : String) :
    hasColorAttr (G.ensureNode v) u = hasColorAttr G u := by
  by_cases h : u = v
  · subst h
    unfold hasColorAttr Graph.getNode Graph.ensureNode
    rw [lookup_adjustOrAdd_self]
    cases h2 : List.lookup u G.nodes with
    | none => simp [List.lookup]
    | some at0 => simp
  · unfold hasColorAttr Graph.getNode Graph.ensureNode
    rw [lookup_adjustOrAdd_ne _ _ _ h]

theorem hasColor_addEdge (G : Graph) (a b u : String) :
    hasColorAttr (G.addEdge a b) u = hasColorAttr G u := by
  unfold Graph.addEdge
  split
  · rw [hasColor_ensureNode, hasColor_ensureNode]
  · show hasColorAttr ((G.ensureNode a).ensureNode b) u = hasColorAttr G u
    rw [hasColor_ensureNode, hasColor_ensureNode]

theorem hasColor_addNodeShaped_self (G : Graph) (n : String) :
    hasColorAttr (G.addNodeShaped n) n = true := by
  unfold hasColorAttr Graph.getNode Graph.addNodeShaped
  rw [lookup_adjustOrAdd_self]
  cases h : List.lookup n G.nodes with
  | none => simp [List.lookup]
  | some at0 => simp [lookup_upsert_self]

theorem hasColor_addNodeShaped_ne (G : Graph) {n u : String} (h : u ≠ n) :
    hasColorAttr (G.addNodeShaped n) u = hasColorAttr G u := by
  unfold hasColorAttr Graph.getNode Graph.addNodeShaped
  rw [lookup_adjustOrAdd_ne _ _ _ h]

theorem hasColor_addNodeColor_self (G : Graph) (u c : String) :
    hasColorAttr (G.addNodeColor u c) u = true := by
  unfold hasColorAttr Graph.getNode Graph.addNodeColor
  rw [lookup_adjustOrAdd_self]
  cases h : List.lookup u G.nodes with
  | none => simp [List.lookup]
  | some at0 => simp [lookup_upsert_self]

theorem colorOf_eq (G : Graph) (u : String) {at0 : NodeAttrs}
    (h : G.getNode u = some at0) :
    colorOf G u =
      (match List.lookup "color" at0 with
        | some (AttrVal.s c) => some c
        | _ => none) := by
  unfold colorOf
  rw [h]

theorem hasColorAttr_eq (G : Graph) (u : String) {at0 : NodeAttrs}
    (h : G.getNode u = some at0) :
    hasColorAttr G u = (List.lookup "color" at0).isSome := by
  unfold hasColorAttr
  rw [h]

theorem color_add_to_graph {G G2 : Graph} {uid nn an : String} {sep : Bool}
    (hok : add_to_graph G uid nn an sep = .ok G2)
    (hca : hasColorAttr G uid = true) :
    (∀ u, colorOf G2 u = colorOf G u ∨ colorOf G2 u = some "orange")
      ∧ hasColorAttr G2 uid = true := by
  unfold add_to_graph at hok
  cases hsep : sep with
  | true =>
    rw [hsep] at hok
    simp only [if_true, Except.ok.injEq] at hok
    subst hok
    constructor
    · intro u
      rw [colorOf_addEdge]
      by_cases h : u = nn
      · subst h
        exact Or.inr (colorOf_addNodeShaped_self _ _)
      · rw [colorOf_addNodeShaped_ne _ h]
        exact Or.inl rfl
    · rw [hasColor_addEdge]
      by_cases h : uid = nn
      · subst h
        exact hasColor_addNodeShaped_self _ _
      · rw [hasColor_addNodeShaped_ne _ h]
        exact hca
  | false =>
    rw [hsep] at hok
    simp only [Bool.false_eq_true, if_false] at hok
    cases hG : G.getNode uid with
    | none =>
      rw [hG] at hok
      exact absurd hok (by simp)
    | some at0 =>
      simp only [hG] at hok
      have hc0 : (List.lookup "color" at0).isSome = true := by
        rw [hasColorAttr_eq G uid hG] at hca
        exact hca
      have main : ∀ v : AttrVal,
          (an = "color" → ∀ s, v ≠ AttrVal.s s) →
          (an = "color" → ∀ s, List.lookup "color" at0 ≠ some (AttrVal.s s)) →
          (∀ u, colorOf ⟨updNodeAttrs G.nodes uid an v, G.edges⟩ u = colorOf G u
              ∨ colorOf ⟨updNodeAttrs G.nodes uid an v, G.edges⟩ u = some "orange")
            ∧ hasColorAttr ⟨updNodeAttrs G.nodes uid an v, G.edges⟩ uid = true := by
        intro v hv hold
        constructor
        · intro u
          by_cases hu : u = uid
          · subst hu
            left
            rw [colorOf_eq _ _ (getNode_updG_self G an v hG), colorOf_eq _ _ hG]
            by_cases hanc : an = "color"
            · subst hanc
              rw [lookup_upsert_self]
              cases v with
              | s s0 => exact absurd rfl (hv rfl s0)
              | m xs =>
                cases hcl : List.lookup "color" at0 with
                | none => rfl
                | some w =>
                  cases w with
                  | s c => exact absurd hcl (hold rfl c)
                  | m ys => rfl
            · rw [lookup_upsert_ne _ _ (Ne.symm hanc)]
          · left
            exact colorOf_updG_ne G an v hu
        · rw [hasColorAttr_eq _ _ (getNode_updG_self G an v hG)]
          by_cases hanc : an = "color"
          · subst hanc
            rw [lookup_upsert_self]
            rfl
          · rw [lookup_upsert_ne _ _ (Ne.symm hanc)]
            exact hc0
      cases hl : List.lookup an at0 with
      | none =>
        simp only [hl] at hok
        by_cases hfl : (an == "file_links" || an == "tags") = true
        · rw [hfl] at hok
          simp only [if_true, Except.ok.injEq] at hok
          subst hok
          exact main _ (fun _ s h => AttrVal.noConfusion h)
            (fun hanc s h => by
              rw [hanc] at hl
              rw [hl] at h
              exact Option.noConfusion h)
        · rw [Bool.not_eq_true] at hfl
          rw [hfl] at hok
          simp only [Bool.false_eq_true, if_false, Except.ok.injEq] at hok
          subst hok
          exact main _
            (fun hanc s h => by
              rw [hanc] at hl
              rw [hl] at hc0
              exact Bool.noConfusion hc0)
            (fun hanc s h => by
              rw [hanc] at hl
              rw [hl] at h
              exact Option.noConfusion h)
      | some w =>
        cases w with
        | s s0 =>
          simp only [hl] at hok
          exact absurd hok (by simp)
        | m xs =>
          simp only [hl] at hok
          simp only [Except.ok.injEq] at hok
          subst hok
          exact main _ (fun _ s h => AttrVal.noConfusion h)
            (fun hanc s h => by
              rw [hanc] at hl
              rw [hl] at h
              exact (AttrVal.noConfusion (Option.some.inj h)))

end AddToGraphLemmas

section LoopInvariants

theorem add_to_graph_sep (G : Graph) (uid nn an : String) :
    add_to_graph G uid nn an true = .ok ((G.addNodeShaped nn).addEdge uid nn) := rfl

theorem add_to_graph_inline_ok {G G2 : Graph} {uid nn an : String}
    (hok : add_to_graph G uid nn an false = .ok G2) :
    ∃ at0 v, G.getNode uid = some at0
      ∧ G2 = ⟨updNodeAttrs G.nodes uid an v, G.edges⟩ := by
  unfold add_to_graph at hok
  simp only [Bool.false_eq_true, if_false] at hok
  cases hG : G.getNode uid with
  | none =>
    rw [hG] at hok
    exact absurd hok (by simp)
  | some at0 =>
    simp only [hG] at hok
    cases hl : List.lookup an at0 with
    | none =>
      simp only [hl] at hok
      by_cases hfl : (an == "file_links" || an == "tags") = true
      · rw [hfl] at hok
        simp only [if_true, Except.ok.injEq] at hok
        exact ⟨at0, _, rfl, hok.symm⟩
      · rw [Bool.not_eq_true] at hfl
        rw [hfl] at hok
        simp only [Bool.false_eq_true, if_false, Except.ok.injEq] at hok
        exact ⟨at0, _, rfl, hok.symm⟩
    | some w =>
      cases w with
      | s s0 =>
        simp only [hl] at hok
        exact absurd hok (by simp)
      | m xs =>
        simp only [hl, Except.ok.injEq] at hok
        exact ⟨at0, _, rfl, hok.symm⟩

theorem nodup_add_to_graph {G G2 : Graph} {uid nn an : String} {sep : Bool}
    (hok : add_to_graph G uid nn an sep = .ok G2) (h : G.edges.Nodup) :
    G2.edges.Nodup := by
  cases hsep : sep with
  | true =>
    rw [hsep, add_to_graph_sep] at hok
    have h2 : G2 = (G.addNodeShaped nn).addEdge uid nn := (Except.ok.inj hok).symm
    subst h2
    exact edges_nodup_addEdge _ _ _ h
  | false =>
    rw [hsep] at hok
    obtain ⟨at0, v, _, h2⟩ := add_to_graph_inline_ok hok
    subst h2
    exact h

theorem keys_add_to_graph_inline {G G2 : Graph} {uid nn an : String}
    (hok : add_to_graph G uid nn an false = .ok G2) :
    G2.nodeKeys = G.nodeKeys ∧ G2.edges = G.edges := by
  obtain ⟨at0, v, _, h2⟩ := add_to_graph_inline_ok hok
  subst h2
  exact ⟨keys_updNodeAttrs _ _ _ _, rfl⟩

theorem colorPres_trans {G G1 G2 : Graph}
    (h1 : ∀ u, colorOf G1 u = colorOf G u ∨ colorOf G1 u = some "orange")
    (h2 : ∀ u, colorOf G2 u = colorOf G1 u ∨ colorOf G2 u = some "orange") :
    ∀ u, colorOf G2 u = colorOf G u ∨ colorOf G2 u = some "orange" := by
  intro u
  rcases h2 u with h | h
  · rw [h]
    exact h1 u
  · exact Or.inr h

theorem exBind_ok {x : Except String Graph} {f : Graph → Except String Graph}
    {G2 : Graph} (h : exBind x f = .ok G2) :
    ∃ G1, x = .ok G1 ∧ f G1 = .ok G2 := by
  cases x with
  | error e => exact absurd h (by simp [exBind])
  | ok g => exact ⟨g, rfl, h⟩

theorem hgv_loop_invariant {uid : String} {sep : Bool} (assets : List Asset) :
    ∀ (G : Graph) (carried : Option String) {G2 : Graph},
      hgv_loop uid sep assets G carried = .ok G2 →
      hasColorAttr G uid = true →
      (∀ u, colorOf G2 u = colorOf G u ∨ colorOf G2 u = some "orange")
        ∧ hasColorAttr G2 uid = true
        ∧ (G.edges.Nodup → G2.edges.Nodup) := by
  induction assets with
  | nil =>
    intro G carried G2 hok hca
    have h2 : G = G2 := Except.ok.inj hok
    subst h2
    exact ⟨fun u => Or.inl rfl, hca, id⟩
  | cons a rest ih =>
    intro G carried G2 hok hca
    cases a with
    | tagStr s =>
      by_cases ht : strHasTagSep s = true
      · simp only [hgv_loop, ht, if_true] at hok
        cases hadd : add_to_graph G uid s "tags" false with
        | error e =>
          simp only [hadd] at hok
          exact absurd hok (by simp)
        | ok Gm =>
          simp only [hadd] at hok
          obtain ⟨hcm, hcam⟩ := color_add_to_graph hadd hca
          obtain ⟨h1, h2, h3⟩ := ih Gm carried hok hcam
          exact ⟨colorPres_trans hcm h1, h2,
            fun hn => h3 (nodup_add_to_graph hadd hn)⟩
      · rw [Bool.not_eq_true] at ht
        simp only [hgv_loop, ht, Bool.false_eq_true, if_false] at hok
        exact ih G carried hok hca
    | obj atype url name value pname pvalue =>
      by_cases hemp : (atype == "") = true
      · simp only [hgv_loop, hemp, if_true] at hok
        exact ih G carried hok hca
      · rw [Bool.not_eq_true] at hemp
        by_cases hfl : (atype == "file_link") = true
        · simp only [hgv_loop, hemp, Bool.false_eq_true, if_false, hfl, if_true] at hok
          cases hadd : add_to_graph G uid url "file_links" false with
          | error e =>
            simp only [hadd] at hok
            exact absurd hok (by simp)
          | ok Gm =>
            simp only [hadd] at hok
            obtain ⟨hcm, hcam⟩ := color_add_to_graph hadd hca
            obtain ⟨h1, h2, h3⟩ := ih Gm carried hok hcam
            exact ⟨colorPres_trans hcm h1, h2,
              fun hn => h3 (nodup_add_to_graph hadd hn)⟩
        · rw [Bool.not_eq_true] at hfl
          simp only [hgv_loop, hemp, hfl, Bool.false_eq_true, if_false] at hok
          cases hc2 : (match formatValue (if atype == "property_and_conditions" then pname else name)
              (if atype == "property_and_conditions" then pvalue else value) with
            | some s => some s
            | none => carried) with
          | none =>
            simp only [hc2] at hok
            exact absurd hok (by simp)
          | some nn =>
            simp only [hc2] at hok
            cases hadd : add_to_graph G uid nn
                (if atype == "property_and_conditions" then pname else name) sep with
            | error e =>
              simp only [hadd] at hok
              exact absurd hok (by simp)
            | ok Gm =>
              simp only [hadd] at hok
              obtain ⟨hcm, hcam⟩ := color_add_to_graph hadd hca
              obtain ⟨h1, h2, h3⟩ := ih Gm (some nn) hok hcam
              exact ⟨colorPres_trans hcm h1, h2,
                fun hn => h3 (nodup_add_to_graph hadd hn)⟩

end LoopInvariants

section HandleObjInvariant

theorem step_attr_invariant {b : Bool} {G : Graph} {uid : String}
    {a : Option (List Asset)} {sep : Bool} {G2 : Graph}
    (hok : step_attr b G uid a sep = .ok G2) (hca : hasColorAttr G uid = true) :
    (∀ u, colorOf G2 u = colorOf G u ∨ colorOf G2 u = some "orange")
      ∧ hasColorAttr G2 uid = true
      ∧ (G.edges.Nodup → G2.edges.Nodup) := by
  unfold step_attr at hok
  cases b with
  | false =>
    simp only [Bool.false_eq_true, if_false, Except.ok.injEq] at hok
    subst hok
    exact ⟨fun u => Or.inl rfl, hca, id⟩
  | true =>
    simp only [if_true] at hok
    cases a with
    | none =>
      simp only [Except.ok.injEq] at hok
      subst hok
      exact ⟨fun u => Or.inl rfl, hca, id⟩
    | some assets =>
      exact hgv_loop_invariant assets G none hok hca

theorem add_gemd_assets_invariant {G : Graph} {uid : String} {o : ObjData}
    {flags : AssetsToAdd} {sep : Bool} {G2 : Graph}
    (hok : add_gemd_assets G uid o flags sep = .ok G2)
    (hca : hasColorAttr G uid = true) :
    (∀ u, colorOf G2 u = colorOf G u ∨ colorOf G2 u = some "orange")
      ∧ hasColorAttr G2 uid = true
      ∧ (G.edges.Nodup → G2.edges.Nodup) := by
  unfold add_gemd_assets at hok
  obtain ⟨Ga, h1, hok⟩ := exBind_ok hok
  obtain ⟨Gb, h2, hok⟩ := exBind_ok hok
  obtain ⟨Gc, h3, hok⟩ := exBind_ok hok
  obtain ⟨Gd, h4, hok⟩ := exBind_ok hok
  obtain ⟨p1, q1, r1⟩ := step_attr_invariant h1 hca
  obtain ⟨p2, q2, r2⟩ := step_attr_invariant h2 q1
  obtain ⟨p3, q3, r3⟩ := step_attr_invariant h3 q2
  obtain ⟨p4, q4, r4⟩ := step_attr_invariant h4 q3
  obtain ⟨p5, q5, r5⟩ := step_attr_invariant hok q4
  exact ⟨colorPres_trans (colorPres_trans (colorPres_trans (colorPres_trans p1 p2) p3) p4) p5,
    q5, fun hn => r5 (r4 (r3 (r2 (r1 hn))))⟩

theorem kindColor_ne_orange {c : String} (hc : c ∈ kindColors) :
    ¬(some c = some "orange") := by
  intro heq
  have hco : c = "orange" := Option.some.inj heq
  subst hco
  simp [kindColors] at hc

theorem handle_obj_invariant {G G2 : Graph} {uid : String} {o : ObjData}
    {which : String} {flags : AssetsToAdd} {sep : Bool}
    (hok : handle_gemd_obj G uid o which flags sep = .ok G2) :
    (∀ u c, c ∈ kindColors → colorOf G2 u = some c →
        colorOf G u = some c ∨ (u = uid ∧ strEndsWith o.otype which = true))
      ∧ (G.edges.Nodup → G2.edges.Nodup) := by
  have core : ∀ (H Gm : Graph),
      (∀ u, u ≠ uid → colorOf H u = colorOf G u) →
      hasColorAttr H uid = true →
      (G.edges.Nodup → H.edges.Nodup) →
      add_gemd_assets H uid o flags sep = .ok Gm →
      (∀ u c, c ∈ kindColors → colorOf Gm u = some c →
          colorOf G u = some c ∨ u = uid)
        ∧ (G.edges.Nodup → Gm.edges.Nodup) := by
    intro H Gm hne hca hnd hok2
    obtain ⟨p, q, r⟩ := add_gemd_assets_invariant hok2 hca
    constructor
    · intro u c hc hcol
      rcases p u with h | h
      · by_cases hu : u = uid
        · exact Or.inr hu
        · rw [hcol] at h
          rw [hne u hu] at h
          exact Or.inl h.symm
      · rw [hcol] at h
        exact absurd h (kindColor_ne_orange hc)
    · exact fun hn => r (hnd hn)
  have triv : G = G2 →
      (∀ u c, c ∈ kindColors → colorOf G2 u = some c →
          colorOf G u = some c ∨ (u = uid ∧ strEndsWith o.otype which = true))
        ∧ (G.edges.Nodup → G2.edges.Nodup) := by
    intro h
    subst h
    exact ⟨fun u c _ hcol => Or.inl hcol, id⟩
  unfold handle_gemd_obj at hok
  split at hok
  case isTrue hsw =>
    split at hok
    case isTrue hw =>
      obtain ⟨A, B⟩ := core (G.addNodeColor uid "red") G2
        (fun u hu => colorOf_addNodeColor_ne G "red" hu)
        (hasColor_addNodeColor_self G uid "red") (fun hn => hn) hok
      refine ⟨fun u c hc hcol => ?_, B⟩
      rcases A u c hc hcol with h | h
      · exact Or.inl h
      · exact Or.inr ⟨h, hw⟩
    case isFalse _ => exact triv (Except.ok.inj hok)
  case isFalse _ =>
    split at hok
    case isTrue _ =>
      split at hok
      case isTrue hw =>
        cases hp : o.process with
        | none =>
          rw [hp] at hok
          exact absurd hok (by simp)
        | some op =>
          cases op with
          | none =>
            rw [hp] at hok
            exact absurd hok (by simp)
          | some pid =>
            simp only [hp] at hok
            obtain ⟨Gm, hgm, hcont⟩ := exBind_ok hok
            obtain ⟨A, B⟩ := core ((G.addNodeColor uid "blue").addEdge uid pid) Gm
              (fun u hu => by
                rw [colorOf_addEdge]
                exact colorOf_addNodeColor_ne G "blue" hu)
              (by
                rw [hasColor_addEdge]
                exact hasColor_addNodeColor_self G uid "blue")
              (fun hn => edges_nodup_addEdge _ _ _ hn) hgm
            have final : ∀ (G3 : Graph), G3 = G2 →
                (∀ u, colorOf G3 u = colorOf Gm u) →
                (Gm.edges.Nodup → G3.edges.Nodup) →
                (∀ u c, c ∈ kindColors → colorOf G2 u = some c →
                    colorOf G u = some c ∨ (u = uid ∧ strEndsWith o.otype which = true))
                  ∧ (G.edges.Nodup → G2.edges.Nodup) := by
              intro G3 hg3 hcg hng
              subst hg3
              refine ⟨fun u c hc hcol => ?_, fun hn => hng (B hn)⟩
              rw [hcg u] at hcol
              rcases A u c hc hcol with h | h
              · exact Or.inl h
              · exact Or.inr ⟨h, hw⟩
            cases hm : o.material with
            | none =>
              simp only [hm] at hcont
              exact final Gm (Except.ok.inj hcont) (fun u => rfl) id
            | some om =>
              cases om with
              | none =>
                simp only [hm] at hcont
                exact final Gm (Except.ok.inj hcont) (fun u => rfl) id
              | some mid =>
                simp only [hm] at hcont
                exact final (Gm.addEdge mid uid) (Except.ok.inj hcont)
                  (fun u => colorOf_addEdge Gm mid uid u)
                  (edges_nodup_addEdge Gm mid uid)
      case isFalse _ => exact triv (Except.ok.inj hok)
    case isFalse _ =>
      split at hok
      case isTrue _ =>
        split at hok
        case isTrue hw =>
          obtain ⟨Gm, hgm, hcont⟩ := exBind_ok hok
          obtain ⟨A, B⟩ := core (G.addNodeColor uid "green") Gm
            (fun u hu => colorOf_addNodeColor_ne G "green" hu)
            (hasColor_addNodeColor_self G uid "green") (fun hn => hn) hgm
          have final : ∀ (G3 : Graph), G3 = G2 →
              (∀ u, colorOf G3 u = colorOf Gm u) →
              (Gm.edges.Nodup → G3.edges.Nodup) →
              (∀ u c, c ∈ kindColors → colorOf G2 u = some c →
                  colorOf G u = some c ∨ (u = uid ∧ strEndsWith o.otype which = true))
                ∧ (G.edges.Nodup → G2.edges.Nodup) := by
            intro G3 hg3 hcg hng
            subst hg3
            refine ⟨fun u c hc hcol => ?_, fun hn => hng (B hn)⟩
            rw [hcg u] at hcol
            rcases A u c hc hcol with h | h
            · exact Or.inl h
            · exact Or.inr ⟨h, hw⟩
          cases hp : o.process with
          | none =>
            simp only [hp] at hcont
            exact absurd hcont (by simp)
          | some op =>
            cases op with
            | none =>
              simp only [hp] at hcont
              exact final Gm (Except.ok.inj hcont) (fun u => rfl) id
            | some pid =>
              simp only [hp] at hcont
              exact final (Gm.addEdge pid uid) (Except.ok.inj hcont)
                (fun u => colorOf_addEdge Gm pid uid u)
                (edges_nodup_addEdge Gm pid uid)
        case isFalse _ => exact triv (Except.ok.inj hok)
      case isFalse _ =>
        split at hok
        case isTrue _ =>
          split at hok
          case isTrue hw =>
            obtain ⟨Gm, hgm, hcont⟩ := exBind_ok hok
            obtain ⟨A, B⟩ := core (G.addNodeColor uid "purple") Gm
              (fun u hu => colorOf_addNodeColor_ne G "purple" hu)
              (hasColor_addNodeColor_self G uid "purple") (fun hn => hn) hgm
            have final : ∀ (G3 : Graph), G3 = G2 →
                (∀ u, colorOf G3 u = colorOf Gm u) →
                (Gm.edges.Nodup → G3.edges.Nodup) →
                (∀ u c, c ∈ kindColors → colorOf G2 u = some c →
                    colorOf G u = some c ∨ (u = uid ∧ strEndsWith o.otype which = true))
                  ∧ (G.edges.Nodup → G2.edges.Nodup) := by
              intro G3 hg3 hcg hng
              subst hg3
              refine ⟨fun u c hc hcol => ?_, fun hn => hng (B hn)⟩
              rw [hcg u] at hcol
              rcases A u c hc hcol with h | h
              · exact Or.inl h
              · exact Or.inr ⟨h, hw⟩
            cases hm : o.material with
            | none =>
              simp only [hm] at hcont
              exact final Gm (Except.ok.inj hcont) (fun u => rfl) id
            | some om =>
              cases om with
              | none =>
                simp only [hm] at hcont
                exact final Gm (Except.ok.inj hcont) (fun u => rfl) id
              | some mid =>
                simp only [hm] at hcont
                exact final (Gm.addEdge uid mid) (Except.ok.inj hcont)
                  (fun u => colorOf_addEdge Gm uid mid u)
                  (edges_nodup_addEdge Gm uid mid)
          case isFalse _ => exact triv (Except.ok.inj hok)
        case isFalse _ => exact triv (Except.ok.inj hok)

end HandleObjInvariant

section BuildLoopInvariants

theorem loop_colored {which track : String} {flags : AssetsToAdd} {sep : Bool}
    (objs : List GemdEntry) :
    ∀ (G : Graph) (nm : List (String × String)) {G2 : Graph}
      {nm2 : List (String × String)},
      build_graph_loop which flags sep track objs G nm = .ok (G2, nm2) →
      ∀ u c, c ∈ kindColors → colorOf G2 u = some c →
        colorOf G u = some c ∨ ∃ e ∈ objs, eligibleFor which track u e = true := by
  induction objs with
  | nil =>
    intro G nm G2 nm2 hok u c hc hcol
    have h := Except.ok.inj hok
    have hG : G = G2 := congrArg Prod.fst h
    rw [hG]
    exact Or.inl hcol
  | cons e rest ih =>
    intro G nm G2 nm2 hok u c hc hcol
    have lift : (∃ e2 ∈ rest, eligibleFor which track u e2 = true) →
        ∃ e2 ∈ e :: rest, eligibleFor which track u e2 = true := by
      rintro ⟨e2, he2, hel⟩
      exact ⟨e2, List.mem_cons_of_mem _ he2, hel⟩
    cases e with
    | rawJsons =>
      rcases ih G nm hok u c hc hcol with h | h
      · exact Or.inl h
      · exact Or.inr (lift h)
    | listData =>
      rcases ih G nm hok u c hc hcol with h | h
      · exact Or.inl h
      · exact Or.inr (lift h)
    | obj o =>
      by_cases hd : (strStartsWith o.otype "parameter" || strStartsWith o.otype "condition"
          || strStartsWith o.otype "property") = true
      · simp only [build_graph_loop, hd, if_true] at hok
        rcases ih G nm hok u c hc hcol with h | h
        · exact Or.inl h
        · exact Or.inr (lift h)
      · rw [Bool.not_eq_true] at hd
        simp only [build_graph_loop, hd, Bool.false_eq_true, if_false] at hok
        cases hu : List.lookup track o.uids with
        | none =>
          simp only [hu] at hok
          rcases ih _ _ hok u c hc hcol with h | h
          · exact Or.inl h
          · exact Or.inr (lift h)
        | some uid =>
          simp only [hu] at hok
          cases hh : handle_gemd_obj G uid o which flags sep with
          | error e2 =>
            simp only [hh] at hok
            exact absurd hok (by simp)
          | ok Gm =>
            simp only [hh] at hok
            rcases ih _ _ hok u c hc hcol with h | h
            · rcases (handle_obj_invariant hh).1 u c hc h with h2 | h2
              · exact Or.inl h2
              · obtain ⟨huid, hend⟩ := h2
                refine Or.inr ⟨GemdEntry.obj o, List.mem_cons_self _ _, ?_⟩
                simp only [eligibleFor]
                rw [hend, hu, huid]
                simp
            · exact Or.inr (lift h)

theorem loop_nodup {which track : String} {flags : AssetsToAdd} {sep : Bool}
    (objs : List GemdEntry) :
    ∀ (G : Graph) (nm : List (String × String)) {G2 : Graph}
      {nm2 : List (String × String)},
      build_graph_loop which flags sep track objs G nm = .ok (G2, nm2) →
      G.edges.Nodup → G2.edges.Nodup := by
  induction objs with
  | nil =>
    intro G nm G2 nm2 hok hn
    have h := Except.ok.inj hok
    have hG : G = G2 := congrArg Prod.fst h
    rw [← hG]
    exact hn
  | cons e rest ih =>
    intro G nm G2 nm2 hok hn
    cases e with
    | rawJsons => exact ih G nm hok hn
    | listData => exact ih G nm hok hn
    | obj o =>
      by_cases hd : (strStartsWith o.otype "parameter" || strStartsWith o.otype "condition"
          || strStartsWith o.otype "property") = true
      · simp only [build_graph_loop, hd, if_true] at hok
        exact ih G nm hok hn
      · rw [Bool.not_eq_true] at hd
        simp only [build_graph_loop, hd, Bool.false_eq_true, if_false] at hok
        cases hu : List.lookup track o.uids with
        | none =>
          simp only [hu] at hok
          exact ih _ _ hok hn
        | some uid =>
          simp only [hu] at hok
          cases hh : handle_gemd_obj G uid o which flags sep with
          | error e2 =>
            simp only [hh] at hok
            exact absurd hok (by simp)
          | ok Gm =>
            simp only [hh] at hok
            exact ih _ _ hok ((handle_obj_invariant hh).2 hn)

theorem loop_nm {which track : String} {flags : AssetsToAdd} {sep : Bool}
    (objs : List GemdEntry) :
    ∀ (G : Graph) (nm : List (String × String)) {G2 : Graph}
      {nm2 : List (String × String)},
      build_graph_loop which flags sep track objs G nm = .ok (G2, nm2) →
      ∀ u v, (u, v) ∈ nm2 → (u, v) ∈ nm ∨
        ∃ o, GemdEntry.obj o ∈ objs ∧ List.lookup track o.uids = some u
          ∧ v = o.name ++ ",  " ++ strTake u 3 := by
  induction objs with
  | nil =>
    intro G nm G2 nm2 hok u v hm
    have h := Except.ok.inj hok
    have hnm : nm = nm2 := congrArg Prod.snd h
    rw [hnm]
    exact Or.inl hm
  | cons e rest ih =>
    intro G nm G2 nm2 hok u v hm
    have lift : (∃ o, GemdEntry.obj o ∈ rest ∧ List.lookup track o.uids = some u
          ∧ v = o.name ++ ",  " ++ strTake u 3) →
        ∃ o, GemdEntry.obj o ∈ e :: rest ∧ List.lookup track o.uids = some u
          ∧ v = o.name ++ ",  " ++ strTake u 3 := by
      rintro ⟨o, ho, h1, h2⟩
      exact ⟨o, List.mem_cons_of_mem _ ho, h1, h2⟩
    cases e with
    | rawJsons =>
      rcases ih G nm hok u v hm with h | h
      · exact Or.inl h
      · exact Or.inr (lift h)
    | listData =>
      rcases ih G nm hok u v hm with h | h
      · exact Or.inl h
      · exact Or.inr (lift h)
    | obj o =>
      by_cases hd : (strStartsWith o.otype "parameter" || strStartsWith o.otype "condition"
          || strStartsWith o.otype "property") = true
      · simp only [build_graph_loop, hd, if_true] at hok
        rcases ih G nm hok u v hm with h | h
        · exact Or.inl h
        · exact Or.inr (lift h)
      · rw [Bool.not_eq_true] at hd
        simp only [build_graph_loop, hd, Bool.false_eq_true, if_false] at hok
        cases hu : List.lookup track o.uids with
        | none =>
          simp only [hu] at hok
          rcases ih _ _ hok u v hm with h | h
          · exact Or.inl h
          · exact Or.inr (lift h)
        | some uid =>
          simp only [hu] at hok
          cases hh : handle_gemd_obj G uid o which flags sep with
          | error e2 =>
            simp only [hh] at hok
            exact absurd hok (by simp)
          | ok Gm =>
            simp only [hh] at hok
            rcases ih _ _ hok u v hm with h | h
            · rcases mem_upsert h with h2 | ⟨h2, h3⟩
              · exact Or.inl h2
              · subst h2
                exact Or.inr ⟨o, List.mem_cons_self _ _, hu, h3⟩
            · exact Or.inr (lift h)

end BuildLoopInvariants

section KindDispatch

theorem listPre_excl2 (s : List Char) (c1 c2 : Char) (cs : List Char)
    (d1 d2 : Char) (ds : List Char) (h : listPre (c1 :: c2 :: cs) s = true)
    (hne : (d1 == c1) = false ∨ (d2 == c2) = false) :
    listPre (d1 :: d2 :: ds) s = false := by
  cases s with
  | nil => exact absurd h (by simp [listPre])
  | cons b bs =>
    cases bs with
    | nil =>
      exfalso
      simp [listPre] at h
    | cons b2 bs2 =>
      simp only [listPre, Bool.and_eq_true] at h
      obtain ⟨h1, h2, _⟩ := h
      have hb : c1 = b := beq_iff_eq.mp h1
      have hb2 : c2 = b2 := beq_iff_eq.mp h2
      subst hb
      subst hb2
      rcases hne with hne | hne
      · simp [listPre, hne]
      · simp [listPre, hne]

theorem sw_excl (s p q : String) (c1 c2 : Char) (cs : List Char)
    (d1 d2 : Char) (ds : List Char)
    (hp : p.toList = c1 :: c2 :: cs) (hq : q.toList = d1 :: d2 :: ds)
    (h : strStartsWith s p = true)
    (hne : (d1 == c1) = false ∨ (d2 == c2) = false) :
    strStartsWith s q = false := by
  unfold strStartsWith at *
  rw [hp] at h
  rw [hq]
  exact listPre_excl2 _ _ _ _ _ _ _ h hne

theorem sw_ing_not_proc {s : String} (h : strStartsWith s "ingredient" = true) :
    strStartsWith s "process" = false :=
  sw_excl s "ingredient" "process" 'i' 'n' ['g', 'r', 'e', 'd', 'i', 'e', 'n', 't']
    'p' 'r' ['o', 'c', 'e', 's', 's'] rfl rfl h (Or.inl (by decide))

theorem sw_mat_not_proc {s : String} (h : strStartsWith s "material" = true) :
    strStartsWith s "process" = false :=
  sw_excl s "material" "process" 'm' 'a' ['t', 'e', 'r', 'i', 'a', 'l']
    'p' 'r' ['o', 'c', 'e', 's', 's'] rfl rfl h (Or.inl (by decide))

theorem sw_mat_not_ing {s : String} (h : strStartsWith s "material" = true) :
    strStartsWith s "ingredient" = false :=
  sw_excl s "material" "ingredient" 'm' 'a' ['t', 'e', 'r', 'i', 'a', 'l']
    'i' 'n' ['g', 'r', 'e', 'd', 'i', 'e', 'n', 't'] rfl rfl h (Or.inl (by decide))

theorem sw_meas_not_proc {s : String} (h : strStartsWith s "measurement" = true) :
    strStartsWith s "process" = false :=
  sw_excl s "measurement" "process" 'm' 'e' ['a', 's', 'u', 'r', 'e', 'm', 'e', 'n', 't']
    'p' 'r' ['o', 'c', 'e', 's', 's'] rfl rfl h (Or.inl (by decide))

theorem sw_meas_not_ing {s : String} (h : strStartsWith s "measurement" = true) :
    strStartsWith s "ingredient" = false :=
  sw_excl s "measurement" "ingredient" 'm' 'e' ['a', 's', 'u', 'r', 'e', 'm', 'e', 'n', 't']
    'i' 'n' ['g', 'r', 'e', 'd', 'i', 'e', 'n', 't'] rfl rfl h (Or.inl (by decide))

theorem sw_meas_not_mat {s : String} (h : strStartsWith s "measurement" = true) :
    strStartsWith s "material" = false :=
  sw_excl s "measurement" "material" 'm' 'e' ['a', 's', 'u', 'r', 'e', 'm', 'e', 'n', 't']
    'm' 'a' ['t', 'e', 'r', 'i', 'a', 'l'] rfl rfl h (Or.inr (by decide))

theorem add_gemd_assets_noAssets (G : Graph) (uid : String) (o : ObjData)
    (sep : Bool) : add_gemd_assets G uid o noAssets sep = .ok G := rfl

end KindDispatch

/-- Claim C1: for every eligible record, `handle_gemd_obj` creates a node
colored by kind (process red, ingredient blue, material green, measurement
purple) and wires the kind-specific directed edges: a process adds no
outbound structural edge; an ingredient adds `ingredient -> process` and,
when it references a material, `material -> ingredient`; a material
referencing a process adds `process -> material`; a measurement
referencing a material adds `measurement -> material`.  On the concrete
material/process/ingredient input of the spec, `build_graph` produces
exactly the nodes m1 (green), p1 (red), i1 (blue) and the edges
p1 -> m1, i1 -> p1, m1 -> i1. -/
theorem C1_kind_edges :
    (∀ (G : Graph) (uid : String) (o : ObjData) (which : String) (sep : Bool),
      strStartsWith o.otype "process" = true → strEndsWith o.otype which = true →
      ∃ G2, handle_gemd_obj G uid o which noAssets sep = .ok G2
        ∧ colorOf G2 uid = some "red" ∧ G2.edges = G.edges)
    ∧ (∀ (G : Graph) (uid : String) (o : ObjData) (which : String) (sep : Bool)
        (pid mid : String),
      strStartsWith o.otype "ingredient" = true → strEndsWith o.otype which = true →
      o.process = some (some pid) → o.material = some (some mid) →
      ∃ G2, handle_gemd_obj G uid o which noAssets sep = .ok G2
        ∧ colorOf G2 uid = some "blue"
        ∧ (uid, pid) ∈ G2.edges ∧ (mid, uid) ∈ G2.edges
        ∧ ∀ e ∈ G2.edges, e ∈ G.edges ∨ e = (uid, pid) ∨ e = (mid, uid))
    ∧ (∀ (G : Graph) (uid : String) (o : ObjData) (which : String) (sep : Bool)
        (pid : String),
      strStartsWith o.otype "material" = true → strEndsWith o.otype which = true →
      o.process = some (some pid) →
      ∃ G2, handle_gemd_obj G uid o which noAssets sep = .ok G2
        ∧ colorOf G2 uid = some "green" ∧ (pid, uid) ∈ G2.edges
        ∧ ∀ e ∈ G2.edges, e ∈ G.edges ∨ e = (pid, uid))
    ∧ (∀ (G : Graph) (uid : String) (o : ObjData) (which : String) (sep : Bool)
        (mid : String),
      strStartsWith o.otype "measurement" = true → strEndsWith o.otype which = true →
      o.material = some (some mid) →
      ∃ G2, handle_gemd_obj G uid o which noAssets sep = .ok G2
        ∧ colorOf G2 uid = some "purple" ∧ (uid, mid) ∈ G2.edges
        ∧ ∀ e ∈ G2.edges, e ∈ G.edges ∨ e = (uid, mid))
    ∧ build_graph inputC1 "run" noAssets false "auto" = .ok (some (GC1, nmC1)) := by
  refine ⟨?_, ?_, ?_, ?_, rfl⟩
  · intro G uid o which sep hsw hw
    unfold handle_gemd_obj
    rw [if_pos hsw, if_pos hw, add_gemd_assets_noAssets]
    exact ⟨_, rfl, colorOf_addNodeColor_self G uid "red", rfl⟩
  · intro G uid o which sep pid mid hsw hw hp hm
    have hnp : ¬(strStartsWith o.otype "process" = true) := by
      simp [sw_ing_not_proc hsw]
    unfold handle_gemd_obj
    rw [if_neg hnp, if_pos hsw, if_pos hw]
    simp only [hp, hm, add_gemd_assets_noAssets, exBind]
    refine ⟨_, rfl, ?_, ?_, ?_, ?_⟩
    · rw [colorOf_addEdge, colorOf_addEdge]
      exact colorOf_addNodeColor_self G uid "blue"
    · exact (mem_edges_addEdge _ _ _ _).mpr
        (Or.inl ((mem_edges_addEdge _ _ _ _).mpr (Or.inr rfl)))
    · exact (mem_edges_addEdge _ _ _ _).mpr (Or.inr rfl)
    · intro e he
      rcases (mem_edges_addEdge _ _ _ _).mp he with h | h
      · rcases (mem_edges_addEdge _ _ _ _).mp h with h2 | h2
        · exact Or.inl h2
        · exact Or.inr (Or.inl h2)
      · exact Or.inr (Or.inr h)
  · intro G uid o which sep pid hsw hw hp
    have hnp : ¬(strStartsWith o.otype "process" = true) := by
      simp [sw_mat_not_proc hsw]
    have hni : ¬(strStartsWith o.otype "ingredient" = true) := by
      simp [sw_mat_not_ing hsw]
    unfold handle_gemd_obj
    rw [if_neg hnp, if_neg hni, if_pos hsw, if_pos hw]
    simp only [add_gemd_assets_noAssets, exBind, hp]
    refine ⟨_, rfl, ?_, ?_, ?_⟩
    · rw [colorOf_addEdge]
      exact colorOf_addNodeColor_self G uid "green"
    · exact (mem_edges_addEdge _ _ _ _).mpr (Or.inr rfl)
    · intro e he
      rcases (mem_edges_addEdge _ _ _ _).mp he with h | h
      · exact Or.inl h
      · exact Or.inr h
  · intro G uid o which sep mid hsw hw hm
    have hnp : ¬(strStartsWith o.otype "process" = true) := by
      simp [sw_meas_not_proc hsw]
    have hni : ¬(strStartsWith o.otype "ingredient" = true) := by
      simp [sw_meas_not_ing hsw]
    have hnm : ¬(strStartsWith o.otype "material" = true) := by
      simp [sw_meas_not_mat hsw]
    unfold handle_gemd_obj
    rw [if_neg hnp, if_neg hni, if_neg hnm, if_pos hsw, if_pos hw]
    simp only [add_gemd_assets_noAssets, exBind, hm]
    refine ⟨_, rfl, ?_, ?_, ?_⟩
    · rw [colorOf_addEdge]
      exact colorOf_addNodeColor_self G uid "purple"
    · exact (mem_edges_addEdge _ _ _ _).mpr (Or.inr rfl)
    · intro e he
      rcases (mem_edges_addEdge _ _ _ _).mp he with h | h
      · exact Or.inl h
      · exact Or.inr h

/-- Witness for C1: the four per-kind statements applied at concrete
records, with every hypothesis discharged by evaluation. -/
theorem C1_kind_edges_witness :
    (strStartsWith "process_run" "process" = true
      ∧ strEndsWith "process_run" "run" = true
      ∧ ∃ G2, handle_gemd_obj ⟨[], []⟩ "p1" proc1 "run" noAssets false = .ok G2
          ∧ colorOf G2 "p1" = some "red" ∧ G2.edges = (⟨[], []⟩ : Graph).edges)
    ∧ (strStartsWith "ingredient_run" "ingredient" = true
      ∧ strEndsWith "ingredient_run" "run" = true
      ∧ ing1.process = some (some "p1") ∧ ing1.material = some (some "m1")
      ∧ ∃ G2, handle_gemd_obj ⟨[], []⟩ "i1" ing1 "run" noAssets false = .ok G2
          ∧ colorOf G2 "i1" = some "blue"
          ∧ ("i1", "p1") ∈ G2.edges ∧ ("m1", "i1") ∈ G2.edges
          ∧ ∀ e ∈ G2.edges, e ∈ (⟨[], []⟩ : Graph).edges ∨ e = ("i1", "p1")
              ∨ e = ("m1", "i1")) := by
  constructor
  · exact ⟨by decide, by decide,
      C1_kind_edges.1 ⟨[], []⟩ "p1" proc1 "run" false (by decide) (by decide)⟩
  · exact ⟨by decide, by decide, by decide, by decide,
      C1_kind_edges.2.1 ⟨[], []⟩ "i1" ing1 "run" false "p1" "m1"
        (by decide) (by decide) (by decide) (by decide)⟩

theorem mem_slice_els (G : Graph) (uuid : String)
    (funcs : List (Graph → String → List String)) (addc : Bool) (n : String) :
    n ∈ (if addc then
          listUnion (funcs.foldl (fun acc f => listUnion acc (f G uuid)) []) [uuid]
        else funcs.foldl (fun acc f => listUnion acc (f G uuid)) []) ↔
      ((∃ f ∈ funcs, n ∈ f G uuid) ∨ (addc = true ∧ n = uuid)) := by
  cases addc with
  | true =>
    simp only [if_true]
    rw [mem_listUnion, mem_foldl_union]
    simp
  | false =>
    simp only [Bool.false_eq_true, if_false]
    rw [mem_foldl_union]
    simp

/-- Claim C5: `slice_subgraph` returns the induced subgraph of `G` over
the union of the node sets produced by the passed functions applied to
the anchor, with the anchor itself added exactly when `add_current` is
true; on the 3-node chain A -> B -> C with `functions = [ancestors]`
anchored at C, the node set is {A, B, C} with the anchor and {A, B}
without it. -/
theorem C5_slice_subgraph :
    (∀ (G : Graph) (uuid : String) (funcs : List (Graph → String → List String))
        (addc : Bool) (n : String),
      n ∈ (slice_subgraph G uuid funcs addc).nodeKeys ↔
        n ∈ G.nodeKeys
          ∧ ((∃ f ∈ funcs, n ∈ f G uuid) ∨ (addc = true ∧ n = uuid)))
    ∧ (∀ (G : Graph) (uuid : String) (funcs : List (Graph → String → List String))
        (addc : Bool) (e : String × String),
      e ∈ (slice_subgraph G uuid funcs addc).edges ↔
        e ∈ G.edges
          ∧ ((∃ f ∈ funcs, e.1 ∈ f G uuid) ∨ (addc = true ∧ e.1 = uuid))
          ∧ ((∃ f ∈ funcs, e.2 ∈ f G uuid) ∨ (addc = true ∧ e.2 = uuid)))
    ∧ slice_subgraph chainG "C" [ancestors] true = chainG
    ∧ slice_subgraph chainG "C" [ancestors] false
        = ⟨[("A", []), ("B", [])], [("A", "B")]⟩ := by
  refine ⟨?_, ?_, by decide, by decide⟩
  · intro G uuid funcs addc n
    simp only [slice_subgraph]
    rw [nodeKeys_subgraph, mem_slice_els]
  · intro G uuid funcs addc e
    simp only [slice_subgraph]
    rw [mem_edges_subgraph, mem_slice_els, mem_slice_els]

/-- Counterexample to claim C2 as stated: on an input holding only the
ingredient record i1, the built graph contains a node p1 (created as the
endpoint of the reference edge) although no input record matching the
filter exposes the tracked identifier p1. -/
theorem C2_node_without_record :
    build_graph [GemdEntry.obj ing2] "run" noAssets false "auto"
        = .ok (some (GC2, nmC2))
      ∧ "p1" ∈ GC2.nodeKeys
      ∧ [GemdEntry.obj ing2].any (eligibleFor "run" "auto" "p1") = false :=
  ⟨rfl, by decide, by decide⟩

/-- Claim C2, amended: every node of the built graph that carries one of
the four kind colors corresponds to an input record whose kind string
matches the filter and whose tracked identifier is the node key; nodes
created only as endpoints of reference edges carry no kind color. -/
theorem C2_colored_nodes_from_records {objs : List GemdEntry}
    {which track : String} {flags : AssetsToAdd} {sep : Bool} {G : Graph}
    {nm : List (String × String)}
    (hok : build_graph objs which flags sep track = .ok (some (G, nm))) :
    ∀ u c, c ∈ kindColors → colorOf G u = some c →
      ∃ e ∈ objs, eligibleFor which track u e = true := by
  unfold build_graph at hok
  by_cases h : objs.length = 0
  · rw [if_pos h] at hok
    exact absurd hok (by simp)
  · rw [if_neg h] at hok
    cases hloop : build_graph_loop which flags sep track objs ⟨[], []⟩ [] with
    | error e =>
      simp only [hloop] at hok
      exact absurd hok (by simp)
    | ok p =>
      obtain ⟨G2, nm2⟩ := p
      simp only [hloop, Except.ok.injEq, Option.some.injEq, Prod.mk.injEq] at hok
      obtain ⟨hG, _⟩ := hok
      subst hG
      intro u c hc hcol
      rcases loop_colored objs ⟨[], []⟩ [] hloop u c hc hcol with h2 | h2
      · exact absurd h2 (by simp [colorOf, Graph.getNode, List.lookup])
      · exact h2

/-- Witness for C2 (amended): the end-to-end fixture, where the green
node m1 is traced back to the material record. -/
theorem C2_colored_nodes_witness :
    build_graph inputC1 "run" noAssets false "auto" = .ok (some (GC1, nmC1))
      ∧ "green" ∈ kindColors ∧ colorOf GC1 "m1" = some "green"
      ∧ ∃ e ∈ inputC1, eligibleFor "run" "auto" "m1" e = true :=
  ⟨rfl, by decide, by decide,
    C2_colored_nodes_from_records
      (show build_graph inputC1 "run" noAssets false "auto"
          = .ok (some (GC1, nmC1)) from rfl)
      "m1" "green" (by decide) (by decide)⟩

/-- Claim C3 is contradicted by the code: an unrecognized value type is
not silently dropped.  When no earlier attribute assigned `node_name`,
the fall-through reaches `add_to_graph` with `node_name` unbound and the
call raises `UnboundLocalError`; when an earlier attribute did assign
it, the stale formatted value of attribute `a` is attached under the
unrecognized attribute b's name. -/
theorem C3_unrecognized_value :
    handle_gemd_value G3fix "n1" [badAtt] false
        = .error "UnboundLocalError: node_name"
      ∧ handle_gemd_value G3fix "n1" [goodAtt, badAtt] false
        = .ok ⟨[("n1", [("color", AttrVal.s "green"), ("a", AttrVal.s "a, 5"),
            ("b", AttrVal.s "a, 5")])], []⟩
      ∧ formatValue "b" ⟨"weird", "", "", "", "", "", "", "", "", ""⟩ = none :=
  ⟨rfl, rfl, rfl⟩

/-- Claim C4: the tags half holds (three tags aggregate to the index
mapping 0 -> v1, 1 -> v2, 2 -> v3, never overwritten or deduplicated),
but an ordinary attribute name does not convert to a mapping on its
second occurrence: the first insertion stored a plain string, and the
second performs string item assignment, raising `TypeError`. -/
theorem C4_inline_aggregation :
    handle_gemd_value G4fix "n1"
        [Asset.tagStr "x::1", Asset.tagStr "x::2", Asset.tagStr "x::3"] false
        = .ok ⟨[("n1", [("color", AttrVal.s "red"),
            ("tags", AttrVal.m ["x::1", "x::2", "x::3"])])], []⟩
      ∧ add_to_graph G4fix "n1" "v1" "temp" false
        = .ok ⟨[("n1", [("color", AttrVal.s "red"), ("temp", AttrVal.s "v1")])], []⟩
      ∧ add_to_graph ⟨[("n1", [("color", AttrVal.s "red"), ("temp", AttrVal.s "v1")])], []⟩
          "n1" "v2" "temp" false
        = .error "TypeError: str item assignment" :=
  ⟨rfl, rfl, rfl⟩

/-- Counterexample to claim C6 as stated: an input with one
parameter-typed record yields zero eligible records, yet `build_graph`
does not short-circuit to the `None` result; it returns the triple with
an empty graph. -/
theorem C6_not_none_on_ineligible :
    build_graph [GemdEntry.obj paramRec] "spec" noAssets false "auto"
        = .ok (some (⟨[], []⟩, []))
      ∧ [GemdEntry.obj paramRec].any (eligibleRec "spec" "auto") = false :=
  ⟨rfl, by decide⟩

/-- Claim C6, amended: `build_graph` returns the `None` result exactly
when the input yields zero records at all; when records exist but none
of them is eligible, it returns the triple with an empty graph. -/
theorem C6_none_iff_no_records (objs : List GemdEntry) (which : String)
    (flags : AssetsToAdd) (sep : Bool) (track : String) :
    build_graph objs which flags sep track = .ok none ↔ objs = [] := by
  unfold build_graph
  by_cases h : objs.length = 0
  · rw [if_pos h]
    simp [List.length_eq_zero.mp h]
  · rw [if_neg h]
    constructor
    · intro hok
      cases hloop : build_graph_loop which flags sep track objs ⟨[], []⟩ [] with
      | ok p =>
        obtain ⟨G2, nm2⟩ := p
        simp only [hloop] at hok
        exact absurd hok (by simp)
      | error e =>
        simp only [hloop] at hok
        exact absurd hok (by simp)
    · intro he
      subst he
      exact absurd rfl h

/-- Claim C7 is contradicted by the code for the absent-key case: the
material branch reads `obj_data["process"]` unguarded, so a material
record without a `process` key raises `KeyError` (failing the whole
build), while a present-but-empty reference indeed yields the node with
no edge and no error. -/
theorem C7_material_missing_process :
    handle_gemd_obj ⟨[], []⟩ "m2" matNoProc "run" noAssets false
        = .error "KeyError: process"
      ∧ build_graph [GemdEntry.obj matNoProc] "run" noAssets false "auto"
        = .error "KeyError: process"
      ∧ handle_gemd_obj ⟨[], []⟩ "m2" matEmptyProc "run" noAssets false
        = .ok ⟨[("m2", [("color", AttrVal.s "green")])], []⟩ :=
  ⟨rfl, rfl, rfl⟩

/-- Counterexample to claim C8 as stated: two records inducing the same
directed edge p1 -> m1 leave a single edge in the graph — `DiGraph`
deduplicates, it does not keep parallel edges. -/
theorem C8_no_parallel_edges :
    build_graph [GemdEntry.obj mat1, GemdEntry.obj mat1] "run" noAssets false "auto"
        = .ok (some (GC8, [("m1", "mat one,  m1")]))
      ∧ GC8.edges = [("p1", "m1")]
      ∧ GC8.edges.length = 1 ∧ ¬GC8.edges.length = 2 :=
  ⟨rfl, rfl, rfl, by decide⟩

/-- Claim C8, amended: the built graph is a simple directed graph — its
edge list never contains a duplicate ordered pair, so records inducing
the same edge leave exactly one copy. -/
theorem C8_edges_nodup {objs : List GemdEntry} {which track : String}
    {flags : AssetsToAdd} {sep : Bool} {G : Graph} {nm : List (String × String)}
    (hok : build_graph objs which flags sep track = .ok (some (G, nm))) :
    G.edges.Nodup := by
  unfold build_graph at hok
  by_cases h : objs.length = 0
  · rw [if_pos h] at hok
    exact absurd hok (by simp)
  · rw [if_neg h] at hok
    cases hloop : build_graph_loop which flags sep track objs ⟨[], []⟩ [] with
    | error e =>
      simp only [hloop] at hok
      exact absurd hok (by simp)
    | ok p =>
      obtain ⟨G2, nm2⟩ := p
      simp only [hloop, Except.ok.injEq, Option.some.injEq, Prod.mk.injEq] at hok
      obtain ⟨hG, _⟩ := hok
      subst hG
      exact loop_nodup objs ⟨[], []⟩ [] hloop List.nodup_nil

/-- Witness for C8 (amended): the duplicate-record input. -/
theorem C8_edges_nodup_witness :
    build_graph [GemdEntry.obj mat1, GemdEntry.obj mat1] "run" noAssets false "auto"
        = .ok (some (GC8, [("m1", "mat one,  m1")]))
      ∧ GC8.edges.Nodup :=
  ⟨rfl, C8_edges_nodup
    (show build_graph [GemdEntry.obj mat1, GemdEntry.obj mat1] "run" noAssets false "auto"
        = .ok (some (GC8, [("m1", "mat one,  m1")])) from rfl)⟩

/-- Counterexample to claim C9 as stated: the label stored for
identifier abcdef is "x,  abc" — name, comma, TWO spaces, first three
identifier characters — not the claimed single-space "x, abc". -/
theorem C9_label_two_spaces :
    build_graph [GemdEntry.obj matL] "run" noAssets false "auto"
        = .ok (some (GC9, nmC9))
      ∧ List.lookup "abcdef" nmC9 = some "x,  abc"
      ∧ ¬(List.lookup "abcdef" nmC9 = some ("x" ++ ", " ++ strTake "abcdef" 3)) :=
  ⟨rfl, by decide, by decide⟩

/-- Claim C9, amended: every entry of the name mapping binds a record's
tracked identifier to the label `name ++ ",  " ++ first-3-chars` — a
comma followed by two spaces — built in the same pass. -/
theorem C9_label_format {objs : List GemdEntry} {which track : String}
    {flags : AssetsToAdd} {sep : Bool} {G : Graph} {nm : List (String × String)}
    (hok : build_graph objs which flags sep track = .ok (some (G, nm))) :
    ∀ u v, (u, v) ∈ nm →
      ∃ o, GemdEntry.obj o ∈ objs ∧ List.lookup track o.uids = some u
        ∧ v = o.name ++ ",  " ++ strTake u 3 := by
  unfold build_graph at hok
  by_cases h : objs.length = 0
  · rw [if_pos h] at hok
    exact absurd hok (by simp)
  · rw [if_neg h] at hok
    cases hloop : build_graph_loop which flags sep track objs ⟨[], []⟩ [] with
    | error e =>
      simp only [hloop] at hok
      exact absurd hok (by simp)
    | ok p =>
      obtain ⟨G2, nm2⟩ := p
      simp only [hloop, Except.ok.injEq, Option.some.injEq, Prod.mk.injEq] at hok
      obtain ⟨_, hnm⟩ := hok
      subst hnm
      intro u v hm
      rcases loop_nm objs ⟨[], []⟩ [] hloop u v hm with h2 | h2
      · exact absurd h2 (List.not_mem_nil _)
      · exact h2

/-- Witness for C9 (amended): the single-material input. -/
theorem C9_label_format_witness :
    build_graph [GemdEntry.obj matL] "run" noAssets false "auto"
        = .ok (some (GC9, nmC9))
      ∧ ("abcdef", "x,  abc") ∈ nmC9
      ∧ ∃ o, GemdEntry.obj o ∈ [GemdEntry.obj matL]
          ∧ List.lookup "auto" o.uids = some "abcdef"
          ∧ "x,  abc" = o.name ++ ",  " ++ strTake "abcdef" 3 :=
  ⟨rfl, by decide,
    C9_label_format
      (show build_graph [GemdEntry.obj matL] "run" noAssets false "auto"
          = .ok (some (GC9, nmC9)) from rfl)
      "abcdef" "x,  abc" (by decide)⟩

section TagsLinksLemmas

theorem mem_keys_ensureNode (G : Graph) (v n : String) :
    n ∈ (G.ensureNode v).nodeKeys ↔ n ∈ G.nodeKeys ∨ n = v :=
  keys_adjustOrAdd G.nodes v (fun at0 => at0) [] n

theorem mem_keys_addNodeShaped (G : Graph) (m n : String) :
    n ∈ (G.addNodeShaped m).nodeKeys ↔ n ∈ G.nodeKeys ∨ n = m :=
  keys_adjustOrAdd G.nodes m _ _ n

theorem mem_keys_addEdge (G : Graph) (a b n : String) :
    n ∈ (G.addEdge a b).nodeKeys ↔ n ∈ G.nodeKeys ∨ n = a ∨ n = b := by
  unfold Graph.addEdge
  split
  · show n ∈ ((G.ensureNode a).ensureNode b).nodeKeys ↔ _
    rw [mem_keys_ensureNode, mem_keys_ensureNode, or_assoc]
  · show n ∈ ((G.ensureNode a).ensureNode b).nodeKeys ↔ _
    rw [mem_keys_ensureNode, mem_keys_ensureNode, or_assoc]

theorem allTagsOrLinks_cons {a : Asset} {rest : List Asset}
    (h : allTagsOrLinks (a :: rest) = true) :
    isTagOrLink a = true ∧ allTagsOrLinks rest = true := by
  unfold allTagsOrLinks at h ⊢
  rw [List.all_cons] at h
  exact Bool.and_eq_true_iff.mp h

theorem assetFormatted_obj (atype url name : String) (value : ValueData)
    (pname : String) (pvalue : ValueData)
    (hemp : (atype == "") = false) (hfl : (atype == "file_link") = false) :
    assetFormatted (Asset.obj atype url name value pname pvalue)
      = formatValue (if atype == "property_and_conditions" then pname else name)
          (if atype == "property_and_conditions" then pvalue else value) := by
  unfold assetFormatted
  simp only [hemp, hfl, Bool.false_eq_true, if_false]
  by_cases hpac : (atype == "property_and_conditions") = true
  · simp only [hpac, if_true]
  · rw [Bool.not_eq_true] at hpac
    simp only [hpac, Bool.false_eq_true, if_false]

theorem hgv_tags_links_indep {uid : String} (assets : List Asset) :
    allTagsOrLinks assets = true →
    ∀ (G : Graph) (carried : Option String) (sep sep' : Bool),
      hgv_loop uid sep assets G carried = hgv_loop uid sep' assets G carried := by
  induction assets with
  | nil =>
    intro _ G carried sep sep'
    rfl
  | cons a rest ih =>
    intro hall G carried sep sep'
    obtain ⟨ha, hrest⟩ := allTagsOrLinks_cons hall
    cases a with
    | tagStr s =>
      by_cases ht : strHasTagSep s = true
      · simp only [hgv_loop, ht, if_true]
        cases hadd : add_to_graph G uid s "tags" false with
        | error e => simp only [hadd]
        | ok Gm =>
          simp only [hadd]
          exact ih hrest Gm carried sep sep'
      · rw [Bool.not_eq_true] at ht
        simp only [hgv_loop, ht, Bool.false_eq_true, if_false]
        exact ih hrest G carried sep sep'
    | obj atype url name value pname pvalue =>
      have hat : atype = "file_link" := beq_iff_eq.mp ha
      subst hat
      simp only [hgv_loop]
      have h1 : (("file_link" : String) == "") = false := by decide
      have h2 : (("file_link" : String) == "file_link") = true := by decide
      simp only [h1, h2, Bool.false_eq_true, if_false, if_true]
      cases hadd : add_to_graph G uid url "file_links" false with
      | error e => simp only [hadd]
      | ok Gm =>
        simp only [hadd]
        exact ih hrest Gm carried sep sep'

theorem hgv_tags_links_nodes {uid : String} (assets : List Asset) :
    allTagsOrLinks assets = true →
    ∀ (G : Graph) (carried : Option String) (sep : Bool) {G2 : Graph},
      hgv_loop uid sep assets G carried = .ok G2 →
      G2.nodeKeys = G.nodeKeys ∧ G2.edges = G.edges := by
  induction assets with
  | nil =>
    intro _ G carried sep G2 hok
    have h := Except.ok.inj hok
    subst h
    exact ⟨rfl, rfl⟩
  | cons a rest ih =>
    intro hall G carried sep G2 hok
    obtain ⟨ha, hrest⟩ := allTagsOrLinks_cons hall
    cases a with
    | tagStr s =>
      by_cases ht : strHasTagSep s = true
      · simp only [hgv_loop, ht, if_true] at hok
        cases hadd : add_to_graph G uid s "tags" false with
        | error e =>
          simp only [hadd] at hok
          exact absurd hok (by simp)
        | ok Gm =>
          simp only [hadd] at hok
          obtain ⟨hk, he⟩ := keys_add_to_graph_inline hadd
          obtain ⟨hk2, he2⟩ := ih hrest Gm carried sep hok
          exact ⟨hk2.trans hk, he2.trans he⟩
      · rw [Bool.not_eq_true] at ht
        simp only [hgv_loop, ht, Bool.false_eq_true, if_false] at hok
        exact ih hrest G carried sep hok
    | obj atype url name value pname pvalue =>
      have hat : atype = "file_link" := beq_iff_eq.mp ha
      subst hat
      simp only [hgv_loop] at hok
      have h1 : (("file_link" : String) == "") = false := by decide
      have h2 : (("file_link" : String) == "file_link") = true := by decide
      simp only [h1, h2, Bool.false_eq_true, if_false, if_true] at hok
      cases hadd : add_to_graph G uid url "file_links" false with
      | error e =>
        simp only [hadd] at hok
        exact absurd hok (by simp)
      | ok Gm =>
        simp only [hadd] at hok
        obtain ⟨hk, he⟩ := keys_add_to_graph_inline hadd
        obtain ⟨hk2, he2⟩ := ih hrest Gm carried sep hok
        exact ⟨hk2.trans hk, he2.trans he⟩

theorem tags_attr_mapping {G G2 : Graph} {uid s an : String}
    (han : an = "file_links" ∨ an = "tags")
    (hok : add_to_graph G uid s an false = .ok G2) :
    ∃ xs, attrOf G2 uid an = some (AttrVal.m xs) := by
  have hfl : (an == "file_links" || an == "tags") = true := by
    rcases han with h | h <;> subst h <;> decide
  unfold add_to_graph at hok
  simp only [Bool.false_eq_true, if_false] at hok
  cases hG : G.getNode uid with
  | none =>
    rw [hG] at hok
    exact absurd hok (by simp)
  | some at0 =>
    simp only [hG] at hok
    cases hl : List.lookup an at0 with
    | none =>
      simp only [hl, hfl, if_true, Except.ok.injEq] at hok
      subst hok
      refine ⟨[s], ?_⟩
      unfold attrOf
      rw [getNode_updG_self G an (AttrVal.m [s]) hG]
      exact lookup_upsert_self at0 an (AttrVal.m [s])
    | some w =>
      cases w with
      | s s0 =>
        simp only [hl] at hok
        exact absurd hok (by simp)
      | m xs =>
        simp only [hl, Except.ok.injEq] at hok
        subst hok
        refine ⟨xs ++ [s], ?_⟩
        unfold attrOf
        rw [getNode_updG_self G an (AttrVal.m (xs ++ [s])) hG]
        exact lookup_upsert_self at0 an (AttrVal.m (xs ++ [s]))

theorem hgv_sep_nodes {uid : String} (assets : List Asset) :
    ∀ (G : Graph) (carried : Option String) {G2 : Graph},
      hgv_loop uid true assets G carried = .ok G2 →
      ∀ n, n ∈ G2.nodeKeys →
        n ∈ G.nodeKeys ∨ n = uid ∨ (∃ a ∈ assets, assetFormatted a = some n)
          ∨ carried = some n := by
  induction assets with
  | nil =>
    intro G carried G2 hok n hn
    have h := Except.ok.inj hok
    subst h
    exact Or.inl hn
  | cons a rest ih =>
    intro G carried G2 hok n hn
    have lift : (∃ a2 ∈ rest, assetFormatted a2 = some n) →
        ∃ a2 ∈ a :: rest, assetFormatted a2 = some n := by
      rintro ⟨a2, ha2, hf⟩
      exact ⟨a2, List.mem_cons_of_mem _ ha2, hf⟩
    cases a with
    | tagStr s =>
      by_cases ht : strHasTagSep s = true
      · simp only [hgv_loop, ht, if_true] at hok
        cases hadd : add_to_graph G uid s "tags" false with
        | error e =>
          simp only [hadd] at hok
          exact absurd hok (by simp)
        | ok Gm =>
          simp only [hadd] at hok
          obtain ⟨hk, _⟩ := keys_add_to_graph_inline hadd
          rcases ih Gm carried hok n hn with h | h | h | h
          · rw [hk] at h
            exact Or.inl h
          · exact Or.inr (Or.inl h)
          · exact Or.inr (Or.inr (Or.inl (lift h)))
          · exact Or.inr (Or.inr (Or.inr h))
      · rw [Bool.not_eq_true] at ht
        simp only [hgv_loop, ht, Bool.false_eq_true, if_false] at hok
        rcases ih G carried hok n hn with h | h | h | h
        · exact Or.inl h
        · exact Or.inr (Or.inl h)
        · exact Or.inr (Or.inr (Or.inl (lift h)))
        · exact Or.inr (Or.inr (Or.inr h))
    | obj atype url name value pname pvalue =>
      by_cases hemp : (atype == "") = true
      · simp only [hgv_loop, hemp, if_true] at hok
        rcases ih G carried hok n hn with h | h | h | h
        · exact Or.inl h
        · exact Or.inr (Or.inl h)
        · exact Or.inr (Or.inr (Or.inl (lift h)))
        · exact Or.inr (Or.inr (Or.inr h))
      · rw [Bool.not_eq_true] at hemp
        by_cases hfl : (atype == "file_link") = true
        · simp only [hgv_loop, hemp, hfl, Bool.false_eq_true, if_false, if_true] at hok
          cases hadd : add_to_graph G uid url "file_links" false with
          | error e =>
            simp only [hadd] at hok
            exact absurd hok (by simp)
          | ok Gm =>
            simp only [hadd] at hok
            obtain ⟨hk, _⟩ := keys_add_to_graph_inline hadd
            rcases ih Gm carried hok n hn with h | h | h | h
            · rw [hk] at h
              exact Or.inl h
            · exact Or.inr (Or.inl h)
            · exact Or.inr (Or.inr (Or.inl (lift h)))
            · exact Or.inr (Or.inr (Or.inr h))
        · rw [Bool.not_eq_true] at hfl
          simp only [hgv_loop, hemp, hfl, Bool.false_eq_true, if_false] at hok
          cases hc2 : (match formatValue (if atype == "property_and_conditions" then pname else name)
              (if atype == "property_and_conditions" then pvalue else value) with
            | some s => some s
            | none => carried) with
          | none =>
            simp only [hc2] at hok
            exact absurd hok (by simp)
          | some nn =>
            simp only [hc2, add_to_graph_sep] at hok
            have hnn : n = nn →
                n ∈ G.nodeKeys ∨ n = uid
                  ∨ (∃ a2 ∈ Asset.obj atype url name value pname pvalue :: rest,
                      assetFormatted a2 = some n)
                  ∨ carried = some n := by
              intro he
              subst he
              cases hfv : formatValue (if atype == "property_and_conditions" then pname else name)
                  (if atype == "property_and_conditions" then pvalue else value) with
              | some s0 =>
                rw [hfv] at hc2
                have hs0 : s0 = n := Option.some.inj hc2
                subst hs0
                refine Or.inr (Or.inr (Or.inl ⟨_, List.mem_cons_self _ _, ?_⟩))
                rw [assetFormatted_obj _ _ _ _ _ _ hemp hfl]
                exact hfv
              | none =>
                rw [hfv] at hc2
                exact Or.inr (Or.inr (Or.inr hc2))
            rcases ih _ _ hok n hn with h | h | h | h
            · rcases (mem_keys_addEdge _ _ _ _).mp h with h2 | h2 | h2
              · rcases (mem_keys_addNodeShaped _ _ _).mp h2 with h3 | h3
                · exact Or.inl h3
                · exact hnn h3
              · exact Or.inr (Or.inl h2)
              · exact hnn h2
            · exact Or.inr (Or.inl h)
            · exact Or.inr (Or.inr (Or.inl (lift h)))
            · exact hnn (Option.some.inj h.symm)

end TagsLinksLemmas

/-- Claim C10: tag and file-link values are always attached inline as
index-to-value mappings on the owner node, regardless of the
`add_separate_node` flag — the flag does not change the result on
tag/file-link collections, such collections create no nodes and no
edges, and the `tags`/`file_links` attributes are always mappings; in
separate-node mode, every node beyond the pre-existing ones and the
owner is the formatted value of some parameter/property/condition
attribute in the collection. -/
theorem C10_tags_links_inline :
    (∀ (G : Graph) (uid : String) (assets : List Asset) (sep : Bool),
      allTagsOrLinks assets = true →
      handle_gemd_value G uid assets sep = handle_gemd_value G uid assets false)
    ∧ (∀ (G : Graph) (uid : String) (assets : List Asset) (sep : Bool) (G2 : Graph),
      allTagsOrLinks assets = true →
      handle_gemd_value G uid assets sep = .ok G2 →
      G2.nodeKeys = G.nodeKeys ∧ G2.edges = G.edges)
    ∧ (∀ (G : Graph) (uid s : String) (G2 : Graph),
      add_to_graph G uid s "tags" false = .ok G2 →
      ∃ xs, attrOf G2 uid "tags" = some (AttrVal.m xs))
    ∧ (∀ (G : Graph) (uid s : String) (G2 : Graph),
      add_to_graph G uid s "file_links" false = .ok G2 →
      ∃ xs, attrOf G2 uid "file_links" = some (AttrVal.m xs))
    ∧ (∀ (G : Graph) (uid : String) (assets : List Asset) (G2 : Graph),
      handle_gemd_value G uid assets true = .ok G2 →
      ∀ n, n ∈ G2.nodeKeys →
        n ∈ G.nodeKeys ∨ n = uid ∨ ∃ a ∈ assets, assetFormatted a = some n) := by
  refine ⟨?_, ?_, ?_, ?_, ?_⟩
  · intro G uid assets sep hall
    exact hgv_tags_links_indep assets hall G none sep false
  · intro G uid assets sep G2 hall hok
    exact hgv_tags_links_nodes assets hall G none sep hok
  · intro G uid s G2 hok
    exact tags_attr_mapping (Or.inr rfl) hok
  · intro G uid s G2 hok
    exact tags_attr_mapping (Or.inl rfl) hok
  · intro G uid assets G2 hok n hn
    rcases hgv_sep_nodes assets G none hok n hn with h | h | h | h
    · exact Or.inl h
    · exact Or.inr (Or.inl h)
    · exact Or.inr (Or.inr h)
    · exact absurd h (by simp)

/-- Witness for C10: a single tag on a concrete owner node. -/
theorem C10_tags_links_inline_witness :
    allTagsOrLinks [Asset.tagStr "a::b"] = true
      ∧ handle_gemd_value G10fix "w1" [Asset.tagStr "a::b"] true
        = handle_gemd_value G10fix "w1" [Asset.tagStr "a::b"] false
      ∧ add_to_graph G10fix "w1" "a::b" "tags" false = .ok G10tag
      ∧ ∃ xs, attrOf G10tag "w1" "tags" = some (AttrVal.m xs) :=
  ⟨by decide,
    C10_tags_links_inline.1 G10fix "w1" [Asset.tagStr "a::b"] true (by decide),
    rfl,
    C10_tags_links_inline.2.2.1 G10fix "w1" "a::b" G10tag
      (show add_to_graph G10fix "w1" "a::b" "tags" false = .ok G10tag from rfl)⟩
